import Mathlib

/-
  Verification of the SQuAD data-processing module
  (src/transformers/data/processors/squad.py).

  Shallow embedding conventions:
  - Python strings are Lean `String`s; character-level operations go through
    `String.data : List Char`.
  - Python lists are Lean `List`s.  Python indexing `l[i]` (which supports
    negative wrap-around and raises IndexError out of range) is modelled by
    `pyIndex`, returning `Option`.  Python slicing `l[a:b]` is modelled by
    `pySlice` with the usual clamp/wrap semantics.
  - Fallible code is modelled with `Except PyError`; `PyError` distinguishes
    the exception classes the module can raise (IndexError from sequence
    indexing, ValueError from `list.index` and from the explicit `raise` in
    `_create_examples`, TypeError from applying `len` to `None`).
  - The external tokenizer is an abstract capability (`Tokenizer` structure of
    total functions), mirroring the dependency boundary of the source.
  - The float score `min(left, right) + 0.01 * length` of the max-context
    check is modelled as exact arithmetic, scaled by 100 into the integers
    (`100 * min(left, right) + length`), an order-preserving representation
    of the exact values of the formula.  The only claim about that code is the
    equivalence of the two implementations, which compute the identical
    formula on identical values, so the score representation is immaterial to
    it, and no claim depends on the resolved max-context flags.
-/

inductive PyError where
  | indexError
  | valueError
  | typeError
  deriving DecidableEq, Repr

/-- Python indexing `l[i]`: negative indices wrap from the end; out-of-range
access is an error (modelled as `none`). -/
def pyIndex {α : Type} (l : List α) (i : Int) : Option α :=
  if 0 ≤ i then l[i.toNat]?
  else
    let j : Int := (l.length : Int) + i
    if 0 ≤ j then l[j.toNat]? else none

/-- One boundary of a Python slice `l[a:b]`: negative values wrap from the end,
then the result is clamped to `[0, len]`. -/
def pySliceBound (len : Nat) (i : Int) : Nat :=
  if i < 0 then ((len : Int) + i).toNat else min i.toNat len

/-- Python slicing `l[a:b]` (step 1). -/
def pySlice {α : Type} (l : List α) (a b : Int) : List α :=
  let s := pySliceBound l.length a
  let e := pySliceBound l.length b
  (l.drop s).take (e - s)

/-- Python substring test `hay.find(needle) != -1`, at character level. -/
def containsSub : List Char → List Char → Bool
  | hay, needle =>
    if needle.isPrefixOf hay then true
    else
      match hay with
      | [] => false
      | _ :: t => containsSub t needle

/-- squad.py line 70: `_is_whitespace`. -/
def is_whitespace (c : Char) : Bool :=
  c == ' ' || c == '\t' || c == '\r' || c == '\n' || c.toNat == 0x202F

/-- State of the whitespace-splitting loop of `SquadExample.__init__`
(squad.py lines 365-379): accumulated `doc_tokens`, accumulated
`char_to_word_offset` (entries are `len(doc_tokens) - 1`, hence `-1` before the
first word is seen) and the `prev_is_whitespace` flag. -/
structure WsState where
  doc_tokens : List String
  char_to_word_offset : List Int
  prev_is_whitespace : Bool
  deriving Repr

/-- One iteration of the loop `for c in self.context_text` in
`SquadExample.__init__` (squad.py lines 370-379).  `doc_tokens[-1] += c` is
`dropLast ++ [last.push c]`; the Python access of `doc_tokens[-1]` is reached
only with `prev_is_whitespace` false, which guarantees a nonempty list, so the
`getLastD` default is never consulted. -/
def wsStep (s : WsState) (c : Char) : WsState :=
  if is_whitespace c then
    { s with prev_is_whitespace := true,
             char_to_word_offset :=
               s.char_to_word_offset ++ [(s.doc_tokens.length : Int) - 1] }
  else
    let doc_tokens :=
      if s.prev_is_whitespace then s.doc_tokens ++ [String.singleton c]
      else s.doc_tokens.dropLast ++ [(s.doc_tokens.getLastD "").push c]
    { doc_tokens := doc_tokens,
      char_to_word_offset :=
        s.char_to_word_offset ++ [(doc_tokens.length : Int) - 1],
      prev_is_whitespace := false }

/-- The whole whitespace-splitting loop over a context string. -/
def wsRun (context_text : String) : WsState :=
  context_text.data.foldl wsStep ⟨[], [], true⟩

/-- squad.py lines 343-387: the `SquadExample` record, as left by
`__init__`. -/
structure SquadExample where
  qas_id : String
  question_text : String
  context_text : String
  answer_text : Option String
  title : String
  is_impossible : Bool
  start_position : Int
  end_position : Int
  doc_tokens : List String
  char_to_word_offset : List Int
  deriving Repr

/-- squad.py lines 348-387: `SquadExample.__init__`.  When a start character
offset is supplied for a possible example, line 386 evaluates
`char_to_word_offset[start_position_character]` first — IndexError when out
of range, even when the answer text is absent; line 387 then evaluates
`len(answer_text)` — TypeError when the answer text is absent — and
`char_to_word_offset[start_position_character + len(answer_text) - 1]` —
IndexError when out of range.  The `.error` branches follow this source
evaluation order. -/
def squadExampleInit (qas_id question_text context_text : String)
    (answer_text : Option String) (start_position_character : Option Int)
    (title : String) (is_impossible : Bool) : Except PyError SquadExample :=
  let s := wsRun context_text
  let mk : Int → Int → SquadExample := fun sp ep =>
    { qas_id := qas_id, question_text := question_text,
      context_text := context_text, answer_text := answer_text,
      title := title, is_impossible := is_impossible,
      start_position := sp, end_position := ep,
      doc_tokens := s.doc_tokens,
      char_to_word_offset := s.char_to_word_offset }
  match start_position_character with
  | none => .ok (mk 0 0)
  | some spc =>
    if is_impossible then .ok (mk 0 0)
    else
      match pyIndex s.char_to_word_offset spc with
      | none => .error .indexError
      | some sp =>
        match answer_text with
        | none => .error .typeError
        | some ans =>
          match pyIndex s.char_to_word_offset (spc + (ans.length : Int) - 1) with
          | none => .error .indexError
          | some ep => .ok (mk sp ep)

/-! ### Invariant of the whitespace-splitting loop (claim C4) -/

/-- The invariant relating a processed character prefix `cs` to the loop
state: one offset entry per character, and every non-whitespace character is a
member of the token its offset entry points at. -/
def WsInv (cs : List Char) (s : WsState) : Prop :=
  s.char_to_word_offset.length = cs.length ∧
  ∀ i (h : i < cs.length), is_whitespace (cs.get ⟨i, h⟩) = false →
    ∃ k : Nat, s.char_to_word_offset[i]? = some (k : Int) ∧
      ∃ tok, s.doc_tokens[k]? = some tok ∧ cs.get ⟨i, h⟩ ∈ tok.data

theorem wsStep_offsets (s : WsState) (c : Char) :
    ∃ e, (wsStep s c).char_to_word_offset = s.char_to_word_offset ++ [e] := by
  unfold wsStep
  by_cases h : is_whitespace c
  · exact ⟨(s.doc_tokens.length : Int) - 1, by simp [h]⟩
  · by_cases hprev : s.prev_is_whitespace
    · exact ⟨((s.doc_tokens ++ [String.singleton c]).length : Int) - 1,
        by simp [h, hprev]⟩
    · exact ⟨((s.doc_tokens.dropLast ++ [(s.doc_tokens.getLastD "").push c]).length : Int) - 1,
        by simp [h, hprev]⟩

theorem wsStep_preserves_tok (s : WsState) (c : Char) (k : Nat) (x : Char)
    (h : ∃ tok, s.doc_tokens[k]? = some tok ∧ x ∈ tok.data) :
    ∃ tok, (wsStep s c).doc_tokens[k]? = some tok ∧ x ∈ tok.data := by
  obtain ⟨tok, hget, hmem⟩ := h
  have hk : k < s.doc_tokens.length := by
    rcases List.getElem?_eq_some_iff.1 hget with ⟨h, _⟩
    exact h
  unfold wsStep
  by_cases hws : is_whitespace c
  · exact ⟨tok, by simpa [hws] using hget, hmem⟩
  · by_cases hprev : s.prev_is_whitespace
    · refine ⟨tok, ?_, hmem⟩
      simpa [hws, hprev, List.getElem?_append_left hk] using hget
    · by_cases hlt : k < s.doc_tokens.length - 1
      · refine ⟨tok, ?_, hmem⟩
        have hdl : k < (s.doc_tokens.dropLast).length := by
          simpa [List.length_dropLast] using hlt
        simp only [hws, hprev, if_neg, Bool.false_eq_true, if_false]
        rw [List.getElem?_append_left hdl, List.getElem?_dropLast]
        simpa [hlt] using hget
      · -- `k` is the index of the last token, which is extended by `push`.
        have hke : k = s.doc_tokens.length - 1 := by omega
        have hlast : s.doc_tokens.getLast? = some tok := by
          rw [List.getLast?_eq_getElem?, ← hke]; exact hget
        have hlastD : s.doc_tokens.getLastD "" = tok := by
          rw [List.getLastD_eq_getLast?, hlast]; rfl
        refine ⟨tok.push c, ?_, ?_⟩
        · have hlen : (s.doc_tokens.dropLast).length ≤ k := by
            simp [List.length_dropLast, hke]
          simp only [hws, hprev, Bool.false_eq_true, if_false]
          rw [List.getElem?_append_right hlen, hlastD]
          simp [List.length_dropLast, hke]
        · simp [String.data_push, hmem]

theorem wsStep_nonws (s : WsState) (c : Char) (hc : is_whitespace c = false) :
    ∃ k : Nat, (wsStep s c).char_to_word_offset = s.char_to_word_offset ++ [(k : Int)] ∧
      ∃ tok, (wsStep s c).doc_tokens[k]? = some tok ∧ c ∈ tok.data := by
  by_cases hprev : s.prev_is_whitespace
  · refine ⟨s.doc_tokens.length, ?_, String.singleton c, ?_, ?_⟩
    · simp [wsStep, hc, hprev]
    · simp only [wsStep, hc, hprev, Bool.false_eq_true, if_false, if_true]
      exact List.getElem?_concat_length _ _
    · simp [String.singleton]
  · refine ⟨(s.doc_tokens.dropLast).length, ?_, (s.doc_tokens.getLastD "").push c, ?_, ?_⟩
    · simp [wsStep, hc, hprev]
    · simp only [wsStep, hc, hprev, Bool.false_eq_true, if_false]
      exact List.getElem?_concat_length _ _
    · simp [String.data_push]

theorem wsInv_step (cs : List Char) (s : WsState) (c : Char)
    (h : WsInv cs s) : WsInv (cs ++ [c]) (wsStep s c) := by
  obtain ⟨hlen, hinv⟩ := h
  obtain ⟨e, he⟩ := wsStep_offsets s c
  constructor
  · simp [he, hlen]
  · intro i hi hws
    by_cases hilt : i < cs.length
    · have hchar : (cs ++ [c]).get ⟨i, hi⟩ = cs.get ⟨i, hilt⟩ := by
        exact List.getElem_append_left hilt
      rw [hchar] at hws ⊢
      obtain ⟨k, hoff, htok⟩ := hinv i hilt hws
      refine ⟨k, ?_, wsStep_preserves_tok s c k _ htok⟩
      rw [he, List.getElem?_append_left (by omega : i < s.char_to_word_offset.length)]
      exact hoff
    · have hie : i = cs.length := by
        simp at hi; omega
      have hchar : (cs ++ [c]).get ⟨i, hi⟩ = c := by
        exact List.getElem_concat_length cs c i hie _
      rw [hchar] at hws ⊢
      obtain ⟨k, hoffs, htok⟩ := wsStep_nonws s c hws
      refine ⟨k, ?_, htok⟩
      rw [hoffs, hie, ← hlen]
      exact List.getElem?_concat_length _ _

theorem wsInv_foldl : ∀ (rest cs : List Char) (s : WsState),
    WsInv cs s → WsInv (cs ++ rest) (rest.foldl wsStep s)
  | [], cs, s, h => by simpa using h
  | c :: rest, cs, s, h => by
    have h1 := wsInv_step cs s c h
    have h2 := wsInv_foldl rest (cs ++ [c]) (wsStep s c) h1
    simpa using h2

theorem wsRun_inv (ctx : String) : WsInv ctx.data (wsRun ctx) := by
  have h0 : WsInv [] ⟨[], [], true⟩ := by
    constructor
    · rfl
    · intro i hi
      simp at hi
  simpa using wsInv_foldl ctx.data [] ⟨[], [], true⟩ h0

theorem squadExampleInit_fields (qid qt ctx : String) (ans : Option String)
    (spc : Option Int) (ttl : String) (imp : Bool) (ex : SquadExample)
    (h : squadExampleInit qid qt ctx ans spc ttl imp = .ok ex) :
    ex.doc_tokens = (wsRun ctx).doc_tokens ∧
    ex.char_to_word_offset = (wsRun ctx).char_to_word_offset := by
  unfold squadExampleInit at h
  rcases spc with _ | spc
  · cases h; exact ⟨rfl, rfl⟩
  · by_cases himp : imp
    · simp only [himp, if_true] at h
      cases h; exact ⟨rfl, rfl⟩
    · simp only [himp, Bool.false_eq_true, if_false] at h
      rcases h1 : pyIndex (wsRun ctx).char_to_word_offset spc with _ | sp
      · simp only [h1] at h
        cases h
      · simp only [h1] at h
        rcases ans with _ | a
        · cases h
        · rcases h2 : pyIndex (wsRun ctx).char_to_word_offset (spc + (a.length : Int) - 1) with _ | ep <;>
            simp only [h2] at h <;> cases h <;> exact ⟨rfl, rfl⟩

/-- C4: for every context string, every successful `SquadExample` construction
yields a `char_to_word_offset` with exactly one entry per character of the
context, and for every position `i` holding a non-separator character
(separator = space, tab, CR, LF, U+202F), `doc_tokens[char_to_word_offset[i]]`
contains the character at position `i`. -/
theorem squad_C4_char_to_word_offset (qid qt ctx : String) (ans : Option String)
    (spc : Option Int) (ttl : String) (imp : Bool) (ex : SquadExample)
    (h : squadExampleInit qid qt ctx ans spc ttl imp = .ok ex) :
    ex.char_to_word_offset.length = ctx.data.length ∧
    ∀ i (hi : i < ctx.data.length), is_whitespace (ctx.data.get ⟨i, hi⟩) = false →
      ∃ k : Nat, ex.char_to_word_offset[i]? = some (k : Int) ∧
        ∃ tok, ex.doc_tokens[k]? = some tok ∧ ctx.data.get ⟨i, hi⟩ ∈ tok.data := by
  obtain ⟨hdoc, hoff⟩ := squadExampleInit_fields qid qt ctx ans spc ttl imp ex h
  obtain ⟨hlen, hinv⟩ := wsRun_inv ctx
  rw [hdoc, hoff]
  exact ⟨hlen, hinv⟩

/-- The concrete `SquadExample` built from context `"ab c"` with no answer
information, used by the C4 witness. -/
def wsC4example : SquadExample :=
  { qas_id := "i", question_text := "q", context_text := "ab c",
    answer_text := none, title := "t", is_impossible := false,
    start_position := 0, end_position := 0,
    doc_tokens := ["ab", "c"], char_to_word_offset := [0, 0, 0, 1] }

/-- Witness for C4 at a concrete input: context `"ab c"`, character 3 = `c`. -/
theorem squad_C4_witness :
    (squadExampleInit "i" "q" "ab c" none none "t" false = .ok wsC4example) ∧
    wsC4example.char_to_word_offset.length = "ab c".data.length ∧
    (3 < "ab c".data.length) ∧
    (∃ k : Nat, wsC4example.char_to_word_offset[3]? = some (k : Int) ∧
      ∃ tok, wsC4example.doc_tokens[k]? = some tok ∧
        "ab c".data.get ⟨3, by decide⟩ ∈ tok.data) := by
  refine ⟨rfl, ?_, by decide, ?_⟩
  · exact (squad_C4_char_to_word_offset "i" "q" "ab c" none none "t" false
      wsC4example rfl).1
  · exact (squad_C4_char_to_word_offset "i" "q" "ab c" none none "t" false
      wsC4example rfl).2 3 (by decide) (by decide)

/-! ### Claim C5: totality of SquadExample construction -/

/-- Counterexample to C5: with context `"ab"`, answer text `"abc"` and start
character offset 0, the construction evaluates
`char_to_word_offset[0 + 3 - 1]` on a 2-entry list and raises IndexError, so
construction does not complete for every combination of inputs. -/
theorem squad_C5_counterexample :
    squadExampleInit "id" "q" "ab" (some "abc") (some 0) "t" false =
      .error .indexError := rfl

/-- C5 (amended): construction completes without raising, with start and end
word positions left at 0, whenever the start character offset is absent or
the impossibility flag is set.  When a start offset is supplied for a
possible example, the source subscripts are evaluated in order: an
out-of-range lookup at the start offset raises IndexError (even when the
answer text is absent); otherwise an absent answer text raises TypeError;
otherwise an out-of-range lookup at `start + len(answer) - 1` raises
IndexError; otherwise construction completes with the two looked-up word
positions. -/
theorem squad_C5_amended :
    (∀ qid qt ctx ans ttl imp, ∃ ex,
        squadExampleInit qid qt ctx ans none ttl imp = .ok ex ∧
        ex.start_position = 0 ∧ ex.end_position = 0) ∧
    (∀ qid qt ctx ans spc ttl, ∃ ex,
        squadExampleInit qid qt ctx ans (some spc) ttl true = .ok ex ∧
        ex.start_position = 0 ∧ ex.end_position = 0) ∧
    (∀ (qid qt ctx : String) (ans : Option String) (spc : Int) (ttl : String),
        pyIndex (wsRun ctx).char_to_word_offset spc = none →
        squadExampleInit qid qt ctx ans (some spc) ttl false =
          .error .indexError) ∧
    (∀ (qid qt ctx : String) (spc : Int) (ttl : String) (sp : Int),
        pyIndex (wsRun ctx).char_to_word_offset spc = some sp →
        squadExampleInit qid qt ctx none (some spc) ttl false =
          .error .typeError) ∧
    (∀ (qid qt ctx a : String) (spc : Int) (ttl : String) (sp : Int),
        pyIndex (wsRun ctx).char_to_word_offset spc = some sp →
        pyIndex (wsRun ctx).char_to_word_offset (spc + (a.length : Int) - 1) = none →
        squadExampleInit qid qt ctx (some a) (some spc) ttl false =
          .error .indexError) ∧
    (∀ (qid qt ctx a : String) (spc : Int) (ttl : String) (sp ep : Int),
        pyIndex (wsRun ctx).char_to_word_offset spc = some sp →
        pyIndex (wsRun ctx).char_to_word_offset (spc + (a.length : Int) - 1) = some ep →
        ∃ ex, squadExampleInit qid qt ctx (some a) (some spc) ttl false = .ok ex ∧
          ex.start_position = sp ∧ ex.end_position = ep) := by
  refine ⟨?_, ?_, ?_, ?_, ?_, ?_⟩
  · intro qid qt ctx ans ttl imp
    exact ⟨_, rfl, rfl, rfl⟩
  · intro qid qt ctx ans spc ttl
    exact ⟨_, rfl, rfl, rfl⟩
  · intro qid qt ctx ans spc ttl h1
    unfold squadExampleInit
    simp only [Bool.false_eq_true, if_false, h1]
  · intro qid qt ctx spc ttl sp h1
    unfold squadExampleInit
    simp only [Bool.false_eq_true, if_false, h1]
  · intro qid qt ctx a spc ttl sp h1 h2
    unfold squadExampleInit
    simp only [Bool.false_eq_true, if_false, h1, h2]
  · intro qid qt ctx a spc ttl sp ep h1 h2
    unfold squadExampleInit
    simp only [Bool.false_eq_true, if_false, h1, h2]
    exact ⟨_, rfl, rfl, rfl⟩

/-- Witness for the amended C5 at concrete inputs: an answer-free construction
succeeds with positions 0; on context `"ab"` (offsets `[0, 0]`) each raising
case is exercised — out-of-range end lookup at offset 2 with answer `"abc"`
(IndexError), absent answer text with the start in range (TypeError), and an
out-of-range start at offset 5 with the answer also absent (IndexError,
showing the start subscript is evaluated before the answer length). -/
theorem squad_C5_amended_witness :
    (∃ ex, squadExampleInit "id" "q" "ab" none none "t" false = .ok ex ∧
      ex.start_position = 0 ∧ ex.end_position = 0) ∧
    squadExampleInit "id" "q" "ab" (some "abc") (some 0) "t" false =
      .error .indexError ∧
    squadExampleInit "id" "q" "ab" none (some 0) "t" false =
      .error .typeError ∧
    squadExampleInit "id" "q" "ab" none (some 5) "t" false =
      .error .indexError := by
  refine ⟨squad_C5_amended.1 "id" "q" "ab" none "t" false, ?_, ?_, ?_⟩
  · exact squad_C5_amended.2.2.2.2.1 "id" "q" "ab" "abc" 0 "t" 0 rfl rfl
  · exact squad_C5_amended.2.2.2.1 "id" "q" "ab" 0 "t" 0 rfl
  · exact squad_C5_amended.2.2.1 "id" "q" "ab" none 5 "t" rfl

/-! ### Dataset reading: `_create_examples` (claims C6, C7) -/

/-- One entry of a `"qas"` array: squad.py lines 298-315.  `is_impossible` is
optional in the JSON; `answers` is a list of (text, answer_start) pairs. -/
structure QA where
  id : String
  question : String
  is_impossible : Option Bool
  answers : List (String × Int)
  deriving Repr

/-- One entry of a `"paragraphs"` array. -/
structure SquadParagraph where
  context : String
  qas : List QA
  deriving Repr

/-- One entry of the top-level `"data"` array. -/
structure SquadEntry where
  title : String
  paragraphs : List SquadParagraph
  deriving Repr

/-- Result of a (possibly early-returning) loop level inside
`_create_examples`: `done` models the Python `return examples` that exits all
three nested loops, `cont` models falling through to the next iteration of the
enclosing loop. -/
inductive CreateRes where
  | done (examples : List SquadExample)
  | cont (examples : List SquadExample)
  deriving Repr

/-- squad.py line 329: `only_first is not None and len(examples) > only_first`. -/
def onlyFirstExceeded : Option Nat → Nat → Bool
  | none, _ => false
  | some n, len => n < len

/-- squad.py lines 304-315: default `is_impossible` to false when absent, and
for a training question that is not impossible require exactly one element in
the answers array (else the explicit `raise ValueError`), whose first element
supplies the answer text and start offset. -/
def qaAnswerInfo (is_training : Bool) (qa : QA) :
    Except PyError (Option String × Option Int) :=
  if !qa.is_impossible.getD false && is_training then
    if qa.answers.length != 1 then .error .valueError
    else
      match qa.answers with
      | (text, st) :: _ => .ok (some text, some st)
      | [] => .error .indexError
  else .ok (none, none)

/-- squad.py lines 298-330: the loop `for qa in paragraph["qas"]`. -/
def qasLoop (title context : String) (is_training : Bool)
    (only_first : Option Nat) :
    List QA → List SquadExample → Except PyError CreateRes
  | [], acc => .ok (.cont acc)
  | qa :: rest, acc => do
    let (answer_text, start_position_character) ← qaAnswerInfo is_training qa
    let ex ← squadExampleInit qa.id qa.question context answer_text
      start_position_character title (qa.is_impossible.getD false)
    let acc' := acc ++ [ex]
    if onlyFirstExceeded only_first acc'.length then .ok (.done acc')
    else qasLoop title context is_training only_first rest acc'

/-- squad.py line 296: the loop `for paragraph in entry["paragraphs"]`. -/
def paragraphsLoop (title : String) (is_training : Bool)
    (only_first : Option Nat) :
    List SquadParagraph → List SquadExample → Except PyError CreateRes
  | [], acc => .ok (.cont acc)
  | p :: rest, acc => do
    let r ← qasLoop title p.context is_training only_first p.qas acc
    match r with
    | .done l => .ok (.done l)
    | .cont acc' => paragraphsLoop title is_training only_first rest acc'

/-- squad.py line 294: the loop `for entry in input_data`. -/
def entriesLoop (is_training : Bool) (only_first : Option Nat) :
    List SquadEntry → List SquadExample → Except PyError CreateRes
  | [], acc => .ok (.cont acc)
  | e :: rest, acc => do
    let r ← paragraphsLoop e.title is_training only_first e.paragraphs acc
    match r with
    | .done l => .ok (.done l)
    | .cont acc' => entriesLoop is_training only_first rest acc'

/-- squad.py lines 289-331: `SquadProcessor._create_examples`. -/
def create_examples (input_data : List SquadEntry) (set_type : String)
    (only_first : Option Nat) : Except PyError (List SquadExample) := do
  let is_training := set_type == "train"
  let r ← entriesLoop is_training only_first input_data []
  match r with
  | .done l => .ok l
  | .cont l => .ok l

theorem exceptBindOk {ε α β : Type} (a : α) (f : α → Except ε β) :
    (Except.ok a : Except ε α) >>= f = f a := rfl

theorem exceptBindErr {ε α β : Type} (e : ε) (f : α → Except ε β) :
    (Except.error e : Except ε α) >>= f = .error e := rfl

theorem qasLoop_bound (ttl ctx : String) (tr : Bool) (n : Nat) :
    ∀ (qas : List QA) (acc : List SquadExample), acc.length ≤ n →
      ∀ r, qasLoop ttl ctx tr (some n) qas acc = .ok r →
        (∀ l, r = .done l → l.length ≤ n + 1) ∧
        (∀ l, r = .cont l → l.length ≤ n)
  | [], acc, hacc, r, h => by
    simp only [qasLoop] at h
    cases h
    exact ⟨fun l hl => (by cases hl), fun l hl => (by cases hl; exact hacc)⟩
  | qa :: rest, acc, hacc, r, h => by
    simp only [qasLoop] at h
    rcases hai : qaAnswerInfo tr qa with e | ⟨at_, spc⟩
    · rw [hai, exceptBindErr] at h; cases h
    · rw [hai, exceptBindOk] at h
      rcases hex : squadExampleInit qa.id qa.question ctx at_ spc ttl
          (qa.is_impossible.getD false) with e | ex
      · rw [hex, exceptBindErr] at h; cases h
      · rw [hex, exceptBindOk] at h
        by_cases hexc : onlyFirstExceeded (some n) (acc ++ [ex]).length
        · simp only [hexc, if_true] at h
          cases h
          refine ⟨fun l hl => ?_, fun l hl => (by cases hl)⟩
          cases hl
          simp only [List.length_append, List.length_singleton]
          omega
        · simp only [hexc, Bool.false_eq_true, if_false] at h
          have hle : (acc ++ [ex]).length ≤ n := by
            simp only [onlyFirstExceeded, decide_eq_true_eq, not_lt] at hexc
            exact hexc
          exact qasLoop_bound ttl ctx tr n rest (acc ++ [ex]) hle r h

theorem paragraphsLoop_bound (ttl : String) (tr : Bool) (n : Nat) :
    ∀ (ps : List SquadParagraph) (acc : List SquadExample), acc.length ≤ n →
      ∀ r, paragraphsLoop ttl tr (some n) ps acc = .ok r →
        (∀ l, r = .done l → l.length ≤ n + 1) ∧
        (∀ l, r = .cont l → l.length ≤ n)
  | [], acc, hacc, r, h => by
    simp only [paragraphsLoop] at h
    cases h
    exact ⟨fun l hl => (by cases hl), fun l hl => (by cases hl; exact hacc)⟩
  | p :: rest, acc, hacc, r, h => by
    simp only [paragraphsLoop] at h
    rcases hq : qasLoop ttl p.context tr (some n) p.qas acc with e | r'
    · rw [hq, exceptBindErr] at h; cases h
    · rw [hq, exceptBindOk] at h
      have hb := qasLoop_bound ttl p.context tr n p.qas acc hacc r' hq
      rcases r' with l | acc'
      · cases h
        exact ⟨fun l hl => (by cases hl; exact hb.1 l rfl), fun l hl => (by cases hl)⟩
      · exact paragraphsLoop_bound ttl tr n rest acc' (hb.2 acc' rfl) r h

theorem entriesLoop_bound (tr : Bool) (n : Nat) :
    ∀ (es : List SquadEntry) (acc : List SquadExample), acc.length ≤ n →
      ∀ r, entriesLoop tr (some n) es acc = .ok r →
        (∀ l, r = .done l → l.length ≤ n + 1) ∧
        (∀ l, r = .cont l → l.length ≤ n)
  | [], acc, hacc, r, h => by
    simp only [entriesLoop] at h
    cases h
    exact ⟨fun l hl => (by cases hl), fun l hl => (by cases hl; exact hacc)⟩
  | e :: rest, acc, hacc, r, h => by
    simp only [entriesLoop] at h
    rcases hp : paragraphsLoop e.title tr (some n) e.paragraphs acc with er | r'
    · rw [hp, exceptBindErr] at h; cases h
    · rw [hp, exceptBindOk] at h
      have hb := paragraphsLoop_bound e.title tr n e.paragraphs acc hacc r' hp
      rcases r' with l | acc'
      · cases h
        exact ⟨fun l hl => (by cases hl; exact hb.1 l rfl), fun l hl => (by cases hl)⟩
      · exact entriesLoop_bound tr n rest acc' (hb.2 acc' rfl) r h

/-- A question with no answers and no impossibility flag, used by the C6
counterexample (dev-mode reading never consults the answers). -/
def c6qa (i : String) : QA :=
  { id := i, question := "q", is_impossible := none, answers := [] }

/-- One entry holding a single paragraph with three questions. -/
def c6entry : SquadEntry :=
  { title := "t",
    paragraphs := [{ context := "x", qas := [c6qa "1", c6qa "2", c6qa "3"] }] }

/-- Counterexample to C6: with a limit of 1 and a single paragraph of three
questions, the code returns after the second question (as soon as the
accumulated count exceeds the limit), i.e. 2 examples — strictly inside the
paragraph.  A check performed only after finishing a whole paragraph, as the
claim states, would have accumulated all 3 questions of the paragraph before
checking and returned 3. -/
theorem squad_C6_counterexample :
    (create_examples [c6entry] "dev" (some 1)).map List.length = .ok 2 ∧
    ((c6entry.paragraphs.headD ⟨"", []⟩).qas.length = 3) ∧ (2 : Nat) ≠ 3 :=
  ⟨rfl, rfl, by decide⟩

/-- C6 (amended): the early-exit check of the accumulated example count runs
after every appended question, so reading returns as soon as the count exceeds
the limit; hence the returned example count never exceeds the requested limit
by more than one question. -/
theorem squad_C6_amended (data : List SquadEntry) (set_type : String) (n : Nat)
    (l : List SquadExample)
    (h : create_examples data set_type (some n) = .ok l) :
    l.length ≤ n + 1 := by
  unfold create_examples at h
  simp only [] at h
  rcases he : entriesLoop (set_type == "train") (some n) data [] with e | r
  · rw [he, exceptBindErr] at h; cases h
  · rw [he, exceptBindOk] at h
    have hb := entriesLoop_bound (set_type == "train") n data []
      (by simp) r he
    rcases r with la | la
    · cases h
      exact hb.1 _ rfl
    · cases h
      exact Nat.le_succ_of_le (hb.2 _ rfl)

/-- The two examples returned on the C6 witness input. -/
def c6list : List SquadExample :=
  [{ qas_id := "1", question_text := "q", context_text := "x",
     answer_text := none, title := "t", is_impossible := false,
     start_position := 0, end_position := 0,
     doc_tokens := ["x"], char_to_word_offset := [0] },
   { qas_id := "2", question_text := "q", context_text := "x",
     answer_text := none, title := "t", is_impossible := false,
     start_position := 0, end_position := 0,
     doc_tokens := ["x"], char_to_word_offset := [0] }]

/-- Witness for the amended C6 at a concrete input: limit 1, three available
questions, 2 returned examples, and 2 is at most 1 + 1. -/
theorem squad_C6_amended_witness :
    (create_examples [c6entry] "dev" (some 1)).map List.length = .ok 2 ∧
    c6list.length ≤ 1 + 1 := by
  refine ⟨rfl, squad_C6_amended [c6entry] "dev" 1 c6list ?_⟩
  rfl

/-! ### Claim C7: the answer-count ValueError of `_create_examples` -/

/-- A question that triggers the answer-count check: answerable (impossibility
flag false or absent) with an answers array not of length 1. -/
def badQA (qa : QA) : Prop :=
  qa.is_impossible.getD false = false ∧ qa.answers.length ≠ 1

/-- The single-answer `SquadExample` construction for this question succeeds
(its character offsets are in range of the context). -/
def qaConstructible (title context : String) (qa : QA) : Prop :=
  ∀ text st rest, qa.is_impossible.getD false = false →
    qa.answers = (text, st) :: rest →
    ∃ ex, squadExampleInit qa.id qa.question context (some text) (some st)
      title false = .ok ex

theorem squadExampleInit_ne_valueError (qid q ctx : String)
    (ans : Option String) (spc : Option Int) (ttl : String) (imp : Bool) :
    squadExampleInit qid q ctx ans spc ttl imp ≠ .error .valueError := by
  unfold squadExampleInit
  rcases spc with _ | spc
  · simp
  · by_cases himp : imp
    · simp [himp]
    · simp only [himp, Bool.false_eq_true, if_false]
      rcases pyIndex (wsRun ctx).char_to_word_offset spc with _ | sp
      · simp
      · rcases ans with _ | a
        · simp
        · rcases h2 : pyIndex (wsRun ctx).char_to_word_offset (spc + (a.length : Int) - 1) with _ | ep <;>
            simp [h2]

theorem qaAnswerInfo_valueError (tr : Bool) (qa : QA)
    (h : qaAnswerInfo tr qa = .error .valueError) :
    tr = true ∧ badQA qa := by
  unfold qaAnswerInfo at h
  by_cases hc : (!qa.is_impossible.getD false && tr) = true
  · rcases Bool.and_eq_true_iff.1 hc with ⟨hni, htr⟩
    simp only [Bool.not_eq_eq_eq_not, Bool.not_true] at hni
    refine ⟨htr, hni, ?_⟩
    by_cases hl : (qa.answers.length != 1) = true
    · exact bne_iff_ne.1 hl
    · rcases ha : qa.answers with _ | ⟨⟨text, st⟩, rest⟩
      · simp [ha] at hl
      · rw [if_pos hc, if_neg (by simp [hl]), ha] at h
        cases h
  · rw [if_neg hc] at h
    cases h

theorem qasLoopTailCases (ttl ctx : String) (tr : Bool) (of : Option Nat)
    (rest : List QA) (acc2 : List SquadExample)
    (ih : ∃ r, qasLoop ttl ctx tr of rest acc2 = .ok r) :
    ∃ r, (if onlyFirstExceeded of acc2.length = true
            then Except.ok (CreateRes.done acc2)
            else qasLoop ttl ctx tr of rest acc2) = .ok r := by
  by_cases hexc : onlyFirstExceeded of acc2.length = true
  · exact ⟨_, by rw [if_pos hexc]⟩
  · rw [if_neg hexc]
    exact ih

theorem qasLoop_notTrain_ok (ttl ctx : String) (of : Option Nat) :
    ∀ (qas : List QA) (acc : List SquadExample),
      ∃ r, qasLoop ttl ctx false of qas acc = .ok r
  | [], acc => ⟨.cont acc, rfl⟩
  | qa :: rest, acc => by
    simp only [qasLoop, qaAnswerInfo, Bool.and_false, Bool.false_eq_true,
      if_false, exceptBindOk]
    simp only [squadExampleInit, exceptBindOk]
    exact qasLoopTailCases ttl ctx false of rest _
      (qasLoop_notTrain_ok ttl ctx of rest _)

theorem paragraphsLoop_notTrain_ok (ttl : String) (of : Option Nat) :
    ∀ (ps : List SquadParagraph) (acc : List SquadExample),
      ∃ r, paragraphsLoop ttl false of ps acc = .ok r
  | [], acc => ⟨.cont acc, rfl⟩
  | p :: rest, acc => by
    simp only [paragraphsLoop]
    obtain ⟨r, hr⟩ := qasLoop_notTrain_ok ttl p.context of p.qas acc
    rw [hr, exceptBindOk]
    rcases r with l | acc'
    · exact ⟨.done l, rfl⟩
    · exact paragraphsLoop_notTrain_ok ttl of rest acc'

theorem entriesLoop_notTrain_ok (of : Option Nat) :
    ∀ (es : List SquadEntry) (acc : List SquadExample),
      ∃ r, entriesLoop false of es acc = .ok r
  | [], acc => ⟨.cont acc, rfl⟩
  | e :: rest, acc => by
    simp only [entriesLoop]
    obtain ⟨r, hr⟩ := paragraphsLoop_notTrain_ok e.title of e.paragraphs acc
    rw [hr, exceptBindOk]
    rcases r with l | acc'
    · exact ⟨.done l, rfl⟩
    · exact entriesLoop_notTrain_ok of rest acc'

theorem qasLoop_valueError (ttl ctx : String) (tr : Bool) (of : Option Nat) :
    ∀ (qas : List QA) (acc : List SquadExample),
      qasLoop ttl ctx tr of qas acc = .error .valueError →
      tr = true ∧ ∃ qa ∈ qas, badQA qa
  | [], acc, h => by cases h
  | qa :: rest, acc, h => by
    simp only [qasLoop] at h
    rcases hai : qaAnswerInfo tr qa with e | ⟨at_, spc⟩
    · rw [hai, exceptBindErr] at h
      cases h
      obtain ⟨htr, hbad⟩ := qaAnswerInfo_valueError tr qa hai
      exact ⟨htr, qa, List.mem_cons_self qa rest, hbad⟩
    · rw [hai, exceptBindOk] at h
      rcases hex : squadExampleInit qa.id qa.question ctx at_ spc ttl
          (qa.is_impossible.getD false) with e | ex
      · rw [hex, exceptBindErr] at h
        cases h
        exact absurd hex (squadExampleInit_ne_valueError _ _ _ _ _ _ _)
      · rw [hex, exceptBindOk] at h
        by_cases hexc : onlyFirstExceeded of (acc ++ [ex]).length = true
        · rw [if_pos hexc] at h; cases h
        · rw [if_neg hexc] at h
          obtain ⟨htr, qa', hmem, hbad⟩ :=
            qasLoop_valueError ttl ctx tr of rest (acc ++ [ex]) h
          exact ⟨htr, qa', List.mem_cons_of_mem qa hmem, hbad⟩

theorem paragraphsLoop_valueError (ttl : String) (tr : Bool) (of : Option Nat) :
    ∀ (ps : List SquadParagraph) (acc : List SquadExample),
      paragraphsLoop ttl tr of ps acc = .error .valueError →
      tr = true ∧ ∃ p ∈ ps, ∃ qa ∈ p.qas, badQA qa
  | [], acc, h => by cases h
  | p :: rest, acc, h => by
    simp only [paragraphsLoop] at h
    rcases hq : qasLoop ttl p.context tr of p.qas acc with e | r
    · rw [hq, exceptBindErr] at h
      cases h
      obtain ⟨htr, qa, hmem, hbad⟩ := qasLoop_valueError ttl p.context tr of p.qas acc hq
      exact ⟨htr, p, List.mem_cons_self p rest, qa, hmem, hbad⟩
    · rw [hq, exceptBindOk] at h
      rcases r with l | acc'
      · cases h
      · obtain ⟨htr, p', hmem, hrest⟩ := paragraphsLoop_valueError ttl tr of rest acc' h
        exact ⟨htr, p', List.mem_cons_of_mem p hmem, hrest⟩

theorem entriesLoop_valueError (tr : Bool) (of : Option Nat) :
    ∀ (es : List SquadEntry) (acc : List SquadExample),
      entriesLoop tr of es acc = .error .valueError →
      tr = true ∧ ∃ e ∈ es, ∃ p ∈ e.paragraphs, ∃ qa ∈ p.qas, badQA qa
  | [], acc, h => by cases h
  | e :: rest, acc, h => by
    simp only [entriesLoop] at h
    rcases hp : paragraphsLoop e.title tr of e.paragraphs acc with er | r
    · rw [hp, exceptBindErr] at h
      cases h
      obtain ⟨htr, p, hmem, hrest⟩ := paragraphsLoop_valueError e.title tr of e.paragraphs acc hp
      exact ⟨htr, e, List.mem_cons_self e rest, p, hmem, hrest⟩
    · rw [hp, exceptBindOk] at h
      rcases r with l | acc'
      · cases h
      · obtain ⟨htr, e', hmem, hrest⟩ := entriesLoop_valueError tr of rest acc' h
        exact ⟨htr, e', List.mem_cons_of_mem e hmem, hrest⟩

theorem qasLoop_train_noBad_ok (ttl ctx : String) :
    ∀ (qas : List QA), (∀ qa ∈ qas, qaConstructible ttl ctx qa) →
      (∀ qa ∈ qas, ¬ badQA qa) →
      ∀ acc, ∃ l, qasLoop ttl ctx true none qas acc = .ok (.cont l)
  | [], _, _, acc => ⟨acc, rfl⟩
  | qa :: rest, hcon, hgood, acc => by
    have ihcon : ∀ q ∈ rest, qaConstructible ttl ctx q :=
      fun q hq => hcon q (List.mem_cons_of_mem qa hq)
    have ihgood : ∀ q ∈ rest, ¬ badQA q :=
      fun q hq => hgood q (List.mem_cons_of_mem qa hq)
    by_cases himp : qa.is_impossible.getD false = true
    · have hai : qaAnswerInfo true qa = .ok (none, none) := by
        simp [qaAnswerInfo, himp]
      simp only [qasLoop, hai, exceptBindOk, himp]
      simp only [squadExampleInit, exceptBindOk]
      simp only [onlyFirstExceeded, Bool.false_eq_true, if_false]
      exact qasLoop_train_noBad_ok ttl ctx rest ihcon ihgood _
    · have himpf : qa.is_impossible.getD false = false :=
        Bool.not_eq_true _ ▸ Bool.eq_false_iff.2 himp
      have hlen : qa.answers.length = 1 := by
        by_contra hne
        exact hgood qa (List.mem_cons_self qa rest) ⟨himpf, hne⟩
      rcases ha : qa.answers with _ | ⟨⟨text, st⟩, arest⟩
      · rw [ha] at hlen; cases hlen
      · have harest : arest = [] := by
          rw [ha] at hlen
          simpa using hlen
        have hai : qaAnswerInfo true qa = .ok (some text, some st) := by
          simp [qaAnswerInfo, himpf, ha, harest]
        obtain ⟨ex, hex⟩ := hcon qa (List.mem_cons_self qa rest) text st arest himpf ha
        have hex2 : squadExampleInit qa.id qa.question ctx (some text) (some st)
            ttl (qa.is_impossible.getD false) = Except.ok ex := by
          rw [himpf]; exact hex
        simp only [qasLoop, hai, exceptBindOk, hex2]
        simp only [onlyFirstExceeded, Bool.false_eq_true, if_false]
        exact qasLoop_train_noBad_ok ttl ctx rest ihcon ihgood _

theorem qasLoop_train_error (ttl ctx : String) :
    ∀ (qas : List QA), (∀ qa ∈ qas, qaConstructible ttl ctx qa) →
      (∃ qa ∈ qas, badQA qa) →
      ∀ acc, qasLoop ttl ctx true none qas acc = .error .valueError
  | [], _, hbad, _ => by
    obtain ⟨qa, hmem, _⟩ := hbad
    cases hmem
  | qa :: rest, hcon, hbad, acc => by
    have ihcon : ∀ q ∈ rest, qaConstructible ttl ctx q :=
      fun q hq => hcon q (List.mem_cons_of_mem qa hq)
    by_cases hb : badQA qa
    · obtain ⟨himpf, hlen⟩ := hb
      have hai : qaAnswerInfo true qa = .error .valueError := by
        have : (qa.answers.length != 1) = true := bne_iff_ne.2 hlen
        simp [qaAnswerInfo, himpf, this]
      simp only [qasLoop, hai, exceptBindErr]
    · obtain ⟨qa', hmem, hb'⟩ := hbad
      have hmem' : qa' ∈ rest := by
        rcases List.mem_cons.1 hmem with he | hm
        · exact absurd (he ▸ hb') hb
        · exact hm
      have ihbad : ∃ q ∈ rest, badQA q := ⟨qa', hmem', hb'⟩
      by_cases himp : qa.is_impossible.getD false = true
      · have hai : qaAnswerInfo true qa = .ok (none, none) := by
          simp [qaAnswerInfo, himp]
        simp only [qasLoop, hai, exceptBindOk, himp]
        simp only [squadExampleInit, exceptBindOk]
        simp only [onlyFirstExceeded, Bool.false_eq_true, if_false]
        exact qasLoop_train_error ttl ctx rest ihcon ihbad _
      · have himpf : qa.is_impossible.getD false = false :=
          Bool.not_eq_true _ ▸ Bool.eq_false_iff.2 himp
        have hlen : qa.answers.length = 1 := by
          by_contra hne
          exact hb ⟨himpf, hne⟩
        rcases ha : qa.answers with _ | ⟨⟨text, st⟩, arest⟩
        · rw [ha] at hlen; cases hlen
        · have harest : arest = [] := by
            rw [ha] at hlen
            simpa using hlen
          have hai : qaAnswerInfo true qa = .ok (some text, some st) := by
            simp [qaAnswerInfo, himpf, ha, harest]
          obtain ⟨ex, hex⟩ := hcon qa (List.mem_cons_self qa rest) text st arest himpf ha
          have hex2 : squadExampleInit qa.id qa.question ctx (some text) (some st)
              ttl (qa.is_impossible.getD false) = Except.ok ex := by
            rw [himpf]; exact hex
          simp only [qasLoop, hai, exceptBindOk, hex2]
          simp only [onlyFirstExceeded, Bool.false_eq_true, if_false]
          exact qasLoop_train_error ttl ctx rest ihcon ihbad _

theorem paragraphsLoop_train_error (ttl : String) :
    ∀ (ps : List SquadParagraph),
      (∀ p ∈ ps, ∀ qa ∈ p.qas, qaConstructible ttl p.context qa) →
      (∃ p ∈ ps, ∃ qa ∈ p.qas, badQA qa) →
      ∀ acc, paragraphsLoop ttl true none ps acc = .error .valueError
  | [], _, hbad, _ => by
    obtain ⟨p, hmem, _⟩ := hbad
    cases hmem
  | p :: rest, hcon, hbad, acc => by
    have ihcon : ∀ q ∈ rest, ∀ qa ∈ q.qas, qaConstructible ttl q.context qa :=
      fun q hq => hcon q (List.mem_cons_of_mem p hq)
    by_cases hpb : ∃ qa ∈ p.qas, badQA qa
    · have hq := qasLoop_train_error ttl p.context p.qas
        (hcon p (List.mem_cons_self p rest)) hpb acc
      simp only [paragraphsLoop, hq, exceptBindErr]
    · have hgood : ∀ qa ∈ p.qas, ¬ badQA qa := by
        intro qa hqa hb
        exact hpb ⟨qa, hqa, hb⟩
      obtain ⟨l, hl⟩ := qasLoop_train_noBad_ok ttl p.context p.qas
        (hcon p (List.mem_cons_self p rest)) hgood acc
      obtain ⟨p', hmem, hrest⟩ := hbad
      have hmem' : p' ∈ rest := by
        rcases List.mem_cons.1 hmem with he | hm
        · subst he
          obtain ⟨qa, hqa, hb⟩ := hrest
          exact absurd ⟨qa, hqa, hb⟩ hpb
        · exact hm
      simp only [paragraphsLoop, hl, exceptBindOk]
      exact paragraphsLoop_train_error ttl rest ihcon ⟨p', hmem', hrest⟩ _

theorem entriesLoop_train_error :
    ∀ (es : List SquadEntry),
      (∀ e ∈ es, ∀ p ∈ e.paragraphs, ∀ qa ∈ p.qas, qaConstructible e.title p.context qa) →
      (∃ e ∈ es, ∃ p ∈ e.paragraphs, ∃ qa ∈ p.qas, badQA qa) →
      ∀ acc, entriesLoop true none es acc = .error .valueError
  | [], _, hbad, _ => by
    obtain ⟨e, hmem, _⟩ := hbad
    cases hmem
  | e :: rest, hcon, hbad, acc => by
    have ihcon : ∀ q ∈ rest, ∀ p ∈ q.paragraphs, ∀ qa ∈ p.qas,
        qaConstructible q.title p.context qa :=
      fun q hq => hcon q (List.mem_cons_of_mem e hq)
    by_cases heb : ∃ p ∈ e.paragraphs, ∃ qa ∈ p.qas, badQA qa
    · have hp := paragraphsLoop_train_error e.title e.paragraphs
        (hcon e (List.mem_cons_self e rest)) heb acc
      simp only [entriesLoop, hp, exceptBindErr]
    · obtain ⟨e', hmem, hrest⟩ := hbad
      have hmem' : e' ∈ rest := by
        rcases List.mem_cons.1 hmem with hee | hm
        · subst hee
          exact absurd hrest heb
        · exact hm
      -- the head entry has no bad question: its paragraphs loop succeeds
      have hnall : ∀ p ∈ e.paragraphs, ∀ qa ∈ p.qas, ¬ badQA qa := by
        intro p hp qa hqa hb
        exact heb ⟨p, hp, qa, hqa, hb⟩
      have hok : ∀ (ps : List SquadParagraph),
          (∀ p ∈ ps, ∀ qa ∈ p.qas, qaConstructible e.title p.context qa) →
          (∀ p ∈ ps, ∀ qa ∈ p.qas, ¬ badQA qa) →
          ∀ a, ∃ l, paragraphsLoop e.title true none ps a = .ok (.cont l) := by
        intro ps
        induction ps with
        | nil => exact fun _ _ a => ⟨a, rfl⟩
        | cons p prest ih =>
          intro hc hg a
          obtain ⟨l, hl⟩ := qasLoop_train_noBad_ok e.title p.context p.qas
            (hc p (List.mem_cons_self p prest))
            (hg p (List.mem_cons_self p prest)) a
          obtain ⟨l2, hl2⟩ := ih (fun q hq => hc q (List.mem_cons_of_mem p hq))
            (fun q hq => hg q (List.mem_cons_of_mem p hq)) l
          exact ⟨l2, by simp only [paragraphsLoop, hl, exceptBindOk]; exact hl2⟩
      obtain ⟨l, hl⟩ := hok e.paragraphs (hcon e (List.mem_cons_self e rest)) hnall acc
      simp only [entriesLoop, hl, exceptBindOk]
      exact entriesLoop_train_error rest ihcon ⟨e', hmem', hrest⟩ _

/-- C7: `_create_examples` raises the answer-count ValueError only when
building training examples and only because some question in the data is
answerable (impossibility flag false or absent) with an answers array not of
length exactly 1; non-training (dev) example creation never raises for any
answer count; and conversely, with no limit and well-formed answer offsets, a
training run over data containing such a question does raise it. -/
theorem squad_C7_answer_count :
    (∀ (data : List SquadEntry) (of : Option Nat) (set_type : String),
        set_type ≠ "train" → ∃ l, create_examples data set_type of = .ok l) ∧
    (∀ (data : List SquadEntry) (of : Option Nat),
        create_examples data "train" of = .error .valueError →
        ∃ e ∈ data, ∃ p ∈ e.paragraphs, ∃ qa ∈ p.qas, badQA qa) ∧
    (∀ (data : List SquadEntry),
        (∀ e ∈ data, ∀ p ∈ e.paragraphs, ∀ qa ∈ p.qas,
          qaConstructible e.title p.context qa) →
        (∃ e ∈ data, ∃ p ∈ e.paragraphs, ∃ qa ∈ p.qas, badQA qa) →
        create_examples data "train" none = .error .valueError) := by
  refine ⟨?_, ?_, ?_⟩
  · intro data of set_type hne
    have hbe : (set_type == "train") = false := beq_eq_false_iff_ne.2 hne
    unfold create_examples
    simp only []
    rw [hbe]
    obtain ⟨r, hr⟩ := entriesLoop_notTrain_ok of data []
    rw [hr, exceptBindOk]
    rcases r with l | l
    · exact ⟨l, rfl⟩
    · exact ⟨l, rfl⟩
  · intro data of h
    unfold create_examples at h
    simp only [beq_self_eq_true] at h
    rcases he : entriesLoop true of data [] with e | r
    · rw [he, exceptBindErr] at h
      cases h
      exact (entriesLoop_valueError true of data [] he).2
    · rw [he, exceptBindOk] at h
      rcases r with l | l <;> cases h
  · intro data hcon hbad
    have he := entriesLoop_train_error data hcon hbad []
    unfold create_examples
    simp only [beq_self_eq_true]
    rw [he, exceptBindErr]

/-- The answerable question with zero answers used by the C7 witness. -/
def c7qaBad : QA :=
  { id := "1", question := "q", is_impossible := none, answers := [] }

/-- A data entry containing `c7qaBad`. -/
def c7entryBad : SquadEntry :=
  { title := "t", paragraphs := [{ context := "x", qas := [c7qaBad] }] }

/-- Witness for C7 at concrete inputs: dev reading of any data succeeds; a
training run over data holding an answerable question with zero answers
reports the ValueError, and the error implies such a question exists. -/
theorem squad_C7_witness :
    (∃ l, create_examples [c6entry] "dev" none = .ok l) ∧
    (create_examples [c7entryBad] "train" none = .error .valueError) ∧
    (∃ e ∈ [c7entryBad], ∃ p ∈ e.paragraphs, ∃ qa ∈ p.qas, badQA qa) := by
  refine ⟨squad_C7_answer_count.1 [c6entry] none "dev" (by decide), ?_, ?_⟩
  · refine squad_C7_answer_count.2.2 [c7entryBad] ?_ ?_
    · intro e he p hp qa hqa
      simp only [List.mem_singleton] at he
      subst he
      simp only [c7entryBad, List.mem_singleton] at hp
      subst hp
      simp only [List.mem_singleton] at hqa
      subst hqa
      intro text st rest _ habs
      cases habs
    · exact ⟨c7entryBad, List.mem_singleton_self _,
        ⟨{ context := "x", qas := [c7qaBad] }, List.mem_singleton_self _,
          c7qaBad, List.mem_singleton_self _, rfl, by decide⟩⟩
  · exact squad_C7_answer_count.2.1 [c7entryBad] none rfl

/-! ### The external tokenizer capability and `_improve_answer_span` (claim C9) -/

/-- An argument to the combined `encode_plus` call: either an id sequence (the
already-encoded truncated query) or a token-string sequence (the passage
sub-tokens), matching the two call patterns of squad.py lines 129-137. -/
inductive EncInput where
  | ids (l : List Nat)
  | toks (l : List String)
  deriving Repr

/-- The dictionary returned by the tokenizer `encode_plus` capability: id
sequence, token-type ids, attention mask, and the overflowing tokens when the
key is present. -/
structure EncodedOutput where
  input_ids : List Nat
  token_type_ids : List Nat
  attention_mask : List Nat
  overflowing_tokens : Option (List String)
  deriving Repr

/-- The external tokenizer dependency: sub-word tokenization, plain encoding
with a length cap, combined two-segment encoding
(first segment, second segment, max_length, stride, truncation_strategy;
the padding strategy is the constant `right` at the call site), id-to-token
conversion, the three special-token ids, and the length-budget fields. -/
structure Tokenizer where
  tokenize : String → List String
  encode : String → Nat → List Nat
  encode_plus : EncInput → EncInput → Nat → Int → String → EncodedOutput
  convert_ids_to_tokens : List Nat → List String
  pad_token_id : Nat
  sep_token_id : Nat
  cls_token_id : Nat
  max_len : Nat
  max_len_single_sentence : Nat
  max_len_sentences_pair : Nat

/-- The match tried by `_improve_answer_span`: the space-joined slice
`doc_tokens[s : e+1]` equals the reference text. -/
def improveMatches (doc_tokens : List String) (tok_answer_text : String)
    (s e : Int) : Prop :=
  " ".intercalate (pySlice doc_tokens s (e + 1)) = tok_answer_text

/-- squad.py line 23: `for new_end in range(input_end, new_start - 1, -1)`,
as a countdown; at fuel `k+1` the candidate end is `new_start + k`, so the
first candidate is `input_end` (when called with fuel
`(input_end + 1 - new_start).toNat`) and candidates descend to `new_start`. -/
def improveInnerLoop (doc_tokens : List String) (tok_answer_text : String)
    (new_start : Int) : Nat → Option Int
  | 0 => none
  | k+1 =>
    let new_end := new_start + (k : Int)
    if " ".intercalate (pySlice doc_tokens new_start (new_end + 1)) == tok_answer_text
    then some new_end
    else improveInnerLoop doc_tokens tok_answer_text new_start k

/-- squad.py line 22: `for new_start in range(input_start, input_end + 1)`,
ascending, with the early `return` on the first inner match. -/
def improveOuterLoop (doc_tokens : List String) (tok_answer_text : String)
    (input_end : Int) : Int → Nat → Option (Int × Int)
  | _, 0 => none
  | new_start, k+1 =>
    match improveInnerLoop doc_tokens tok_answer_text new_start
        (input_end + 1 - new_start).toNat with
    | some new_end => some (new_start, new_end)
    | none =>
      improveOuterLoop doc_tokens tok_answer_text input_end (new_start + 1) k

/-- squad.py lines 17-28: `_improve_answer_span`. -/
def improve_answer_span (doc_tokens : List String) (input_start input_end : Int)
    (t : Tokenizer) (orig_answer_text : String) : Int × Int :=
  let tok_answer_text := " ".intercalate (t.tokenize orig_answer_text)
  match improveOuterLoop doc_tokens tok_answer_text input_end input_start
      (input_end + 1 - input_start).toNat with
  | some r => r
  | none => (input_start, input_end)

theorem improveInnerLoop_some (dt : List String) (ta : String) (ns : Int) :
    ∀ (k : Nat) (ne : Int), improveInnerLoop dt ta ns k = some ne →
      ns ≤ ne ∧ ne < ns + k ∧ improveMatches dt ta ns ne ∧
      ∀ e2, ne < e2 → e2 < ns + k → ¬ improveMatches dt ta ns e2
  | 0, ne, h => by cases h
  | k+1, ne, h => by
    simp only [improveInnerLoop] at h
    by_cases hm : (" ".intercalate (pySlice dt ns (ns + (k : Int) + 1)) == ta) = true
    · rw [if_pos hm] at h
      cases h
      refine ⟨by omega, by push_cast; omega, beq_iff_eq.1 hm, ?_⟩
      intro e2 h1 h2
      push_cast at h2
      omega
    · rw [if_neg hm] at h
      obtain ⟨h1, h2, h3, h4⟩ := improveInnerLoop_some dt ta ns k ne h
      refine ⟨h1, by push_cast; push_cast at h2; omega, h3, ?_⟩
      intro e2 he1 he2
      push_cast at he2
      by_cases hek : e2 = ns + (k : Int)
      · subst hek
        intro hmm
        exact hm (beq_iff_eq.2 hmm)
      · exact h4 e2 he1 (by push_cast; omega)

theorem improveInnerLoop_none (dt : List String) (ta : String) (ns : Int) :
    ∀ (k : Nat), improveInnerLoop dt ta ns k = none →
      ∀ e2, ns ≤ e2 → e2 < ns + k → ¬ improveMatches dt ta ns e2
  | 0, _, e2, h1, h2 => by omega
  | k+1, h, e2, h1, h2 => by
    simp only [improveInnerLoop] at h
    by_cases hm : (" ".intercalate (pySlice dt ns (ns + (k : Int) + 1)) == ta) = true
    · rw [if_pos hm] at h; cases h
    · rw [if_neg hm] at h
      push_cast at h2
      by_cases hek : e2 = ns + (k : Int)
      · subst hek
        intro hmm
        exact hm (beq_iff_eq.2 hmm)
      · exact improveInnerLoop_none dt ta ns k h e2 h1 (by push_cast; omega)

theorem improveOuterLoop_some (dt : List String) (ta : String) (ie : Int) :
    ∀ (k : Nat) (ns : Int) (s e : Int),
      improveOuterLoop dt ta ie ns k = some (s, e) →
      ns ≤ s ∧ s ≤ e ∧ e ≤ ie ∧ improveMatches dt ta s e ∧
      ∀ s2 e2, ns ≤ s2 → s2 ≤ e2 → e2 ≤ ie → improveMatches dt ta s2 e2 →
        (s ≤ s2 ∧ (s2 = s → e2 ≤ e))
  | 0, ns, s, e, h => by cases h
  | k+1, ns, s, e, h => by
    simp only [improveOuterLoop] at h
    rcases hin : improveInnerLoop dt ta ns (ie + 1 - ns).toNat with _ | ne
    · rw [hin] at h
      obtain ⟨h1, h2, h3, h4, h5⟩ :=
        improveOuterLoop_some dt ta ie k (ns + 1) s e h
      refine ⟨by omega, h2, h3, h4, ?_⟩
      intro s2 e2 hs2 hse he2 hmm
      by_cases hseq : s2 = ns
      · subst hseq
        have hlt : e2 < s2 + ((ie + 1 - s2).toNat : Int) := by omega
        exact absurd hmm (improveInnerLoop_none dt ta s2 _ hin e2 hse hlt)
      · obtain ⟨ha, hb⟩ := h5 s2 e2 (by omega) hse he2 hmm
        exact ⟨by omega, hb⟩
    · rw [hin] at h
      cases h
      obtain ⟨h1, h2, h3, h4⟩ := improveInnerLoop_some dt ta ns _ _ hin
      have hne : e ≤ ie := by omega
      refine ⟨le_refl _, h1, hne, h3, ?_⟩
      intro s2 e2 hs2 hse he2 hmm
      refine ⟨hs2, ?_⟩
      intro hseq
      subst hseq
      by_contra hgt
      push_neg at hgt
      exact h4 e2 hgt (by omega) hmm

theorem improveOuterLoop_none (dt : List String) (ta : String) (ie : Int) :
    ∀ (k : Nat) (ns : Int), improveOuterLoop dt ta ie ns k = none →
      ∀ s2 e2, ns ≤ s2 → s2 < ns + k → s2 ≤ e2 → e2 ≤ ie →
        ¬ improveMatches dt ta s2 e2
  | 0, ns, _, s2, e2, h1, h2, _, _ => by omega
  | k+1, ns, h, s2, e2, h1, h2, h3, h4 => by
    simp only [improveOuterLoop] at h
    rcases hin : improveInnerLoop dt ta ns (ie + 1 - ns).toNat with _ | ne
    · rw [hin] at h
      by_cases hseq : s2 = ns
      · subst hseq
        have hlt : e2 < s2 + ((ie + 1 - s2).toNat : Int) := by omega
        exact improveInnerLoop_none dt ta s2 _ hin e2 h3 hlt
      · push_cast at h2
        exact improveOuterLoop_none dt ta ie k (ns + 1) h s2 e2 (by omega)
          (by push_cast; omega) h3 h4
    · rw [hin] at h; cases h

/-- C9: `_improve_answer_span` scans sub-ranges of the initial window with
start ascending and, per start, end descending, comparing the space-joined
sub-token slice against the space-joined tokenization of the answer text; it
returns the first matching sub-range, and the original bounds when none
matches. -/
theorem squad_C9_improve_answer_span (dt : List String) (a b : Int)
    (t : Tokenizer) (ans : String) :
    (improveMatches dt (" ".intercalate (t.tokenize ans))
        (improve_answer_span dt a b t ans).1 (improve_answer_span dt a b t ans).2 ∧
      a ≤ (improve_answer_span dt a b t ans).1 ∧
      (improve_answer_span dt a b t ans).1 ≤ (improve_answer_span dt a b t ans).2 ∧
      (improve_answer_span dt a b t ans).2 ≤ b ∧
      ∀ s e, a ≤ s → s ≤ e → e ≤ b →
        improveMatches dt (" ".intercalate (t.tokenize ans)) s e →
        ((improve_answer_span dt a b t ans).1 ≤ s ∧
          (s = (improve_answer_span dt a b t ans).1 →
            e ≤ (improve_answer_span dt a b t ans).2))) ∨
    ((∀ s e, a ≤ s → s ≤ e → e ≤ b →
        ¬ improveMatches dt (" ".intercalate (t.tokenize ans)) s e) ∧
      improve_answer_span dt a b t ans = (a, b)) := by
  unfold improve_answer_span
  simp only []
  rcases hout : improveOuterLoop dt (" ".intercalate (t.tokenize ans)) b a
      (b + 1 - a).toNat with _ | ⟨s, e⟩
  · right
    refine ⟨?_, rfl⟩
    intro s2 e2 h1 h2 h3
    exact improveOuterLoop_none dt _ b _ a hout s2 e2 h1 (by omega) h2 h3
  · left
    obtain ⟨h1, h2, h3, h4, h5⟩ :=
      improveOuterLoop_some dt (" ".intercalate (t.tokenize ans)) b _ a s e hout
    exact ⟨h4, h1, h2, h3, h5⟩

/-! ### Max-context resolution (claims C10 and pipeline support) -/

/-- The span objects consumed by the old `_check_is_max_context`
(attribute access `doc_span.start`, `doc_span.length`). -/
structure DocSpan where
  start : Nat
  length : Nat
  deriving Repr

/-- The per-window dictionary built by the sliding-window loop of
`squad_convert_examples_to_features` (squad.py lines 129-161): the
`encode_plus` output fields plus the keys added at lines 153-159. -/
structure SpanDict where
  input_ids : List Nat
  token_type_ids : List Nat
  attention_mask : List Nat
  overflowing_tokens : Option (List String)
  paragraph_len : Nat
  tokens : List String
  token_to_orig_map : List (Nat × Nat)
  truncated_query_with_special_tokens_length : Nat
  token_is_max_context : List (Nat × Bool)
  start : Nat
  length : Nat
  deriving Repr

/-- The body of both max-context loops, shared score formula:
`min(num_left_context, num_right_context) + 0.01 * length`, modelled exactly
and scaled by 100 to stay in the integers: `100 * min + length`.  Comparing
two scores of this shape agrees with comparing the unscaled exact values.
The two guard `continue`s require `start <= position <= start + length - 1`
(evaluated over the integers, since `length` may be 0). -/
def maxContextStep (start length position : Nat)
    (span_index : Nat) (best : Option Nat × Option Nat) : Option Nat × Option Nat :=
  if (position : Int) < (start : Int) ∨
      ((start : Int) + (length : Int) - 1) < (position : Int) then best
  else
    let num_left_context := position - start
    let num_right_context := start + length - 1 - position
    let score : Nat := 100 * min num_left_context num_right_context + length
    match best.1 with
    | none => (some score, some span_index)
    | some b => if b < score then (some score, some span_index) else best

/-- squad.py lines 30-47: `_check_is_max_context`, with the enumerate loop as
recursion carrying the running span index and the `best_score` /
`best_span_index` accumulators. -/
def checkMaxLoop (position : Nat) :
    List DocSpan → Nat → (Option Nat × Option Nat) → (Option Nat × Option Nat)
  | [], _, best => best
  | ds :: rest, si, best =>
    checkMaxLoop position rest (si + 1) (maxContextStep ds.start ds.length position si best)

def check_is_max_context (doc_spans : List DocSpan)
    (cur_span_index position : Nat) : Bool :=
  (checkMaxLoop position doc_spans 0 (none, none)).2 == some cur_span_index

/-- squad.py lines 49-68: `_new_check_is_max_context`, identical except that
the spans are the pipeline dictionaries (`doc_span["start"]`,
`doc_span["length"]`). -/
def newCheckMaxLoop (position : Nat) :
    List SpanDict → Nat → (Option Nat × Option Nat) → (Option Nat × Option Nat)
  | [], _, best => best
  | ds :: rest, si, best =>
    newCheckMaxLoop position rest (si + 1) (maxContextStep ds.start ds.length position si best)

def new_check_is_max_context (doc_spans : List SpanDict)
    (cur_span_index position : Nat) : Bool :=
  (newCheckMaxLoop position doc_spans 0 (none, none)).2 == some cur_span_index

theorem checkMaxLoop_eq_new (position : Nat) :
    ∀ (old : List DocSpan) (new : List SpanDict),
      old.map (fun d => (d.start, d.length)) =
        new.map (fun s => (s.start, s.length)) →
      ∀ si best, checkMaxLoop position old si best = newCheckMaxLoop position new si best
  | [], [], _, _, _ => rfl
  | [], _ :: _, h, _, _ => by cases h
  | _ :: _, [], h, _, _ => by cases h
  | d :: old, s :: new, h, si, best => by
    simp only [List.map_cons, List.cons.injEq, Prod.mk.injEq] at h
    obtain ⟨⟨hs, hl⟩, ht⟩ := h
    simp only [checkMaxLoop, newCheckMaxLoop, hs, hl]
    exact checkMaxLoop_eq_new position old new (by simpa using ht) (si + 1) _

/-- C10: on spans exposing the same start and length values, the old
(attribute-based) and new (dictionary-based) max-context checks agree for
every current span index and position. -/
theorem squad_C10_max_context_equiv (old : List DocSpan) (new : List SpanDict)
    (h : old.map (fun d => (d.start, d.length)) =
      new.map (fun s => (s.start, s.length)))
    (cur_span_index position : Nat) :
    check_is_max_context old cur_span_index position =
      new_check_is_max_context new cur_span_index position := by
  unfold check_is_max_context new_check_is_max_context
  rw [checkMaxLoop_eq_new position old new h 0 (none, none)]

/-- A concrete span dictionary mirroring `DocSpan` 0/2, for the C10 witness. -/
def c10span : SpanDict :=
  { input_ids := [101, 7, 102], token_type_ids := [0, 0, 1],
    attention_mask := [1, 1, 1], overflowing_tokens := none,
    paragraph_len := 2, tokens := ["a", "b", "c"], token_to_orig_map := [],
    truncated_query_with_special_tokens_length := 1,
    token_is_max_context := [], start := 0, length := 2 }

/-- Witness for C10 at a concrete input: a two-window configuration where the
old and new checks agree (both pick window 0 for position 1, the tie being
kept by the earlier window). -/
theorem squad_C10_witness :
    (check_is_max_context [⟨0, 2⟩, ⟨1, 2⟩] 0 1 =
      new_check_is_max_context [c10span, { c10span with start := 1 }] 0 1) ∧
    check_is_max_context [⟨0, 2⟩, ⟨1, 2⟩] 0 1 = true := by
  constructor
  · exact squad_C10_max_context_equiv [⟨0, 2⟩, ⟨1, 2⟩]
      [c10span, { c10span with start := 1 }] rfl 0 1
  · decide

/-! ### The feature-conversion pipeline (claims C1, C2, C3, C8) -/

/-- Split a character list at every whitespace character (producing possibly
empty chunks, one more than the number of separators). -/
def splitOnWs : List Char → List (List Char)
  | [] => [[]]
  | c :: rest =>
    let r := splitOnWs rest
    if c.isWhitespace then [] :: r
    else (c :: r.headD []) :: r.tail

/-- Modelled from the spec: `whitespace_tokenize` is imported from the BERT
tokenization module (squad.py line 8) and is not part of src/; per the spec,
the recorded answer text is compared `after normalizing internal whitespace`,
i.e. split on whitespace runs, empties discarded, and re-joined with single
spaces at the call site (squad.py line 92). -/
def whitespace_tokenize (s : String) : List String :=
  ((splitOnWs s.data).filter (fun w => !w.isEmpty)).map (fun w => String.mk w)

/-- squad.py lines 390-427: the `SquadFeatures` record. -/
structure SquadFeatures where
  input_ids : List Nat
  attention_mask : List Nat
  token_type_ids : List Nat
  cls_index : Nat
  p_mask : List Nat
  example_index : Nat
  unique_id : Nat
  paragraph_len : Nat
  token_is_max_context : List (Nat × Bool)
  tokens : List String
  token_to_orig_map : List (Nat × Nat)
  start_position : Int
  end_position : Int
  deriving Repr

/-- Python `list.index(x)`: the first index holding `x`, ValueError (`none`)
when absent. -/
def pyListIndex (l : List Nat) (x : Nat) : Option Nat :=
  match l with
  | [] => none
  | a :: rest => if a == x then some 0 else (pyListIndex rest x).map (· + 1)

/-- `np.where(np.array(l) == x)[0]`: all indices of `l` holding `x`, in
ascending order. -/
def npWhereEq (l : List Nat) (x : Nat) : List Nat :=
  (List.range l.length).filter (fun i => l.getD i 0 == x)

/-- squad.py lines 98-106: sub-tokenize every whitespace token, building
`tok_to_orig_index` (sub-token index to originating word index),
`orig_to_tok_index` (word index to its first sub-token index) and the
flattened `all_doc_tokens`. -/
def buildIndexMaps (t : Tokenizer) (doc_tokens : List String) :
    List Nat × List Nat × List String :=
  doc_tokens.enum.foldl
    (fun (acc : List Nat × List Nat × List String) itok =>
      let sub_tokens := t.tokenize itok.2
      (acc.1 ++ sub_tokens.map (fun _ => itok.1),
       acc.2.1 ++ [acc.2.2.length],
       acc.2.2 ++ sub_tokens))
    ([], [], [])

/-- squad.py lines 193-217: the per-window answer-position computation, as the
triple (start_position, end_position, span_is_impossible).  `doc_end` is
computed over the integers since `span.length` may be 0 (a window with a
negative Python capacity is modelled with length 0; in both renderings no
in-window token exists and the out-of-span branch is taken for training).
Both positions stay 0 outside the training-and-answerable branch. -/
def spanPositions (is_training : Bool) (example_is_impossible : Bool)
    (tok_start_position tok_end_position : Int) (sequence_a_is_doc : Bool)
    (query_plus_specials : Nat) (cls_index : Nat) (span : SpanDict) :
    Int × Int × Bool :=
  if is_training && !example_is_impossible then
    let doc_start : Int := (span.start : Int)
    let doc_end : Int := (span.start : Int) + (span.length : Int) - 1
    if ¬ (doc_start ≤ tok_start_position ∧ tok_end_position ≤ doc_end) then
      ((cls_index : Int), (cls_index : Int), true)
    else
      let doc_offset : Int :=
        if sequence_a_is_doc then 0 else (query_plus_specials : Nat)
      (tok_start_position - doc_start + doc_offset,
       tok_end_position - doc_start + doc_offset,
       example_is_impossible)
  else (0, 0, example_is_impossible)

/-- squad.py lines 173-238 for one window: locate the classification token
(`list.index`, ValueError when absent), build the probability mask (clamp the
segment ids to 1, invert unless `sequence_a_is_doc`, force separator positions
to 1 and the classification position to 0 — the numpy point assignments raise
IndexError when a target index falls outside the mask, checked up front here),
compute the window answer positions, and assemble the `SquadFeatures` record
with the supplied `unique_id`. -/
def assembleSpanFeature (t : Tokenizer) (is_training sequence_a_is_doc : Bool)
    (example_is_impossible : Bool) (tok_start_position tok_end_position : Int)
    (query_plus_specials : Nat) (example_index unique_id : Nat)
    (span : SpanDict) : Except PyError SquadFeatures :=
  match pyListIndex span.input_ids t.cls_token_id with
  | none => .error .valueError
  | some cls_index =>
    let p0 := span.token_type_ids.map (fun v => min v 1)
    let p1 := if sequence_a_is_doc then p0 else p0.map (fun v => 1 - v)
    let sep_positions := npWhereEq span.input_ids t.sep_token_id
    if (∀ i ∈ sep_positions, i < p1.length) ∧ cls_index < p1.length then
      let p2 := sep_positions.foldl (fun acc i => acc.set i 1) p1
      let p3 := p2.set cls_index 0
      let pos := spanPositions is_training example_is_impossible
        tok_start_position tok_end_position sequence_a_is_doc
        query_plus_specials cls_index span
      .ok { input_ids := span.input_ids,
            attention_mask := span.attention_mask,
            token_type_ids := span.token_type_ids,
            cls_index := cls_index, p_mask := p3,
            example_index := example_index, unique_id := unique_id,
            paragraph_len := span.paragraph_len,
            token_is_max_context := span.token_is_max_context,
            tokens := span.tokens,
            token_to_orig_map := span.token_to_orig_map,
            start_position := pos.1, end_position := pos.2.1 }
    else .error .indexError

/-- squad.py lines 126-165: the sliding-window `while` loop.  One fuel unit
per iteration; with `doc_stride >= 1` the guard bounds the iteration count by
`all_doc_tokens.length`, so the fuel `all_doc_tokens.length + 1` is never
exhausted (with `doc_stride = 0` and endless tokenizer overflow the Python
loop would not terminate; the model then stops, and no claim depends on spans
past that point).  `non_padded_ids` (slice up to the first padding id when one
occurs, the whole list otherwise) is `takeWhile (!= pad)`.  The
`tok_to_orig_index` lookup is within range because
`spans.length * doc_stride + i < all_doc_tokens.length` under the loop guard,
so the `getD` default is never consulted. -/
def buildSpansAux (t : Tokenizer) (max_seq_length doc_stride : Nat)
    (truncated_query : List Nat)
    (sequence_added_tokens sequence_pair_added_tokens : Nat)
    (tok_to_orig_index : List Nat) (all_doc_tokens : List String)
    (sequence_a_is_doc : Bool) :
    Nat → List SpanDict → List String → List SpanDict
  | 0, spans, _ => spans
  | fuel + 1, spans, span_doc_tokens =>
    if spans.length * doc_stride < all_doc_tokens.length then
      let stride : Int := (max_seq_length : Int) - (doc_stride : Int) -
        (truncated_query.length : Int) - (sequence_pair_added_tokens : Int)
      let enc := t.encode_plus
        (if sequence_a_is_doc then .toks span_doc_tokens else .ids truncated_query)
        (if sequence_a_is_doc then .ids truncated_query else .toks span_doc_tokens)
        max_seq_length stride
        (if sequence_a_is_doc then "only_first" else "only_second")
      let paragraph_len := min
        (all_doc_tokens.length - spans.length * doc_stride)
        (max_seq_length - truncated_query.length - sequence_pair_added_tokens)
      let non_padded_ids := enc.input_ids.takeWhile (fun idv => idv != t.pad_token_id)
      let tokens := t.convert_ids_to_tokens non_padded_ids
      let token_to_orig_map := (List.range paragraph_len).map (fun i =>
        ((if sequence_a_is_doc then i
          else truncated_query.length + sequence_added_tokens + i),
         tok_to_orig_index.getD (spans.length * doc_stride + i) 0))
      let span : SpanDict :=
        { input_ids := enc.input_ids, token_type_ids := enc.token_type_ids,
          attention_mask := enc.attention_mask,
          overflowing_tokens := enc.overflowing_tokens,
          paragraph_len := paragraph_len, tokens := tokens,
          token_to_orig_map := token_to_orig_map,
          truncated_query_with_special_tokens_length :=
            truncated_query.length + sequence_added_tokens,
          token_is_max_context := [],
          start := spans.length * doc_stride, length := paragraph_len }
      match enc.overflowing_tokens with
      | none => spans ++ [span]
      | some ov => buildSpansAux t max_seq_length doc_stride truncated_query
          sequence_added_tokens sequence_pair_added_tokens tok_to_orig_index
          all_doc_tokens sequence_a_is_doc fuel (spans ++ [span]) ov
    else spans

def buildSpans (t : Tokenizer) (max_seq_length doc_stride : Nat)
    (truncated_query : List Nat)
    (sequence_added_tokens sequence_pair_added_tokens : Nat)
    (tok_to_orig_index : List Nat) (all_doc_tokens : List String)
    (sequence_a_is_doc : Bool) : List SpanDict :=
  buildSpansAux t max_seq_length doc_stride truncated_query
    sequence_added_tokens sequence_pair_added_tokens tok_to_orig_index
    all_doc_tokens sequence_a_is_doc (all_doc_tokens.length + 1) [] all_doc_tokens

/-- squad.py lines 167-171: resolve `token_is_max_context` for every window
position.  The Python loop mutates each dictionary in turn while
`_new_check_is_max_context` reads only the `start` and `length` keys, which
the loop never modifies, so mapping over the finished span list is
equivalent. -/
def fillMaxContext (spans : List SpanDict) (doc_stride : Nat)
    (sequence_a_is_doc : Bool) : List SpanDict :=
  spans.enum.map (fun dspan =>
    { dspan.2 with token_is_max_context :=
        (List.range dspan.2.paragraph_len).map (fun j =>
          ((if sequence_a_is_doc then j
            else dspan.2.truncated_query_with_special_tokens_length + j),
           new_check_is_max_context spans dspan.1 (dspan.1 * doc_stride + j))) })

/-- squad.py lines 90-95: the training filter condition
`actual_text.find(cleaned_answer_text) == -1`.  `answer_text` is `None`-free
on this path in practice; an absent answer text is modelled as the empty
string (for which the condition is false and nothing is skipped, while Python
would raise inside `whitespace_tokenize`). -/
def answerMismatched (ex : SquadExample) : Bool :=
  !(containsSub
    (" ".intercalate (pySlice ex.doc_tokens ex.start_position
      (ex.end_position + 1))).data
    (" ".intercalate (whitespace_tokenize (ex.answer_text.getD ""))).data)

/-- squad.py lines 173-238: the `for span in spans` loop, incrementing
`unique_id` once per produced feature. -/
def spanLoop (t : Tokenizer) (is_training sequence_a_is_doc : Bool)
    (example_is_impossible : Bool) (tok_start_position tok_end_position : Int)
    (query_plus_specials : Nat) (example_index : Nat) :
    Nat → List SpanDict → Except PyError (List SquadFeatures)
  | _, [] => .ok []
  | unique_id, span :: rest => do
    let f ← assembleSpanFeature t is_training sequence_a_is_doc
      example_is_impossible tok_start_position tok_end_position
      query_plus_specials example_index unique_id span
    let fs ← spanLoop t is_training sequence_a_is_doc example_is_impossible
      tok_start_position tok_end_position query_plus_specials example_index
      (unique_id + 1) rest
    return f :: fs

/-- squad.py lines 85-238: the body of the `for example in examples` loop.
The `continue` of the training filter yields an empty feature list.  The
refined sub-token positions (lines 109-118) are computed only on the
training-and-answerable path (the dummy pair (0, 0) stands for the Python
variables being left undefined and unread otherwise);
`orig_to_tok_index[example.start_position]` and
`orig_to_tok_index[example.end_position + 1]` raise IndexError out of range.
`_improve_answer_span` receives the example answer text (absent modelled as
the empty string). -/
def convertExample (t : Tokenizer)
    (max_seq_length doc_stride max_query_length : Nat)
    (is_training sequence_a_is_doc : Bool) (example_index unique_id : Nat)
    (ex : SquadExample) : Except PyError (List SquadFeatures) := do
  if is_training && !ex.is_impossible && answerMismatched ex then
    return []
  else
    let maps := buildIndexMaps t ex.doc_tokens
    let tok_to_orig_index := maps.1
    let orig_to_tok_index := maps.2.1
    let all_doc_tokens := maps.2.2
    let tokpos ←
      (if is_training && !ex.is_impossible then
        match pyIndex orig_to_tok_index ex.start_position with
        | none => .error PyError.indexError
        | some ts =>
          let te : Except PyError Int :=
            if ex.end_position < (ex.doc_tokens.length : Int) - 1 then
              match pyIndex orig_to_tok_index (ex.end_position + 1) with
              | none => .error PyError.indexError
              | some v => .ok ((v : Int) - 1)
            else .ok ((all_doc_tokens.length : Int) - 1)
          match te with
          | .error e => .error e
          | .ok tev => .ok (improve_answer_span all_doc_tokens (ts : Int) tev t
              (ex.answer_text.getD ""))
      else .ok ((0 : Int), (0 : Int)))
    let truncated_query := t.encode ex.question_text max_query_length
    let sequence_added_tokens := t.max_len - t.max_len_single_sentence
    let sequence_pair_added_tokens := t.max_len - t.max_len_sentences_pair
    let spans := buildSpans t max_seq_length doc_stride truncated_query
      sequence_added_tokens sequence_pair_added_tokens tok_to_orig_index
      all_doc_tokens sequence_a_is_doc
    let spans2 := fillMaxContext spans doc_stride sequence_a_is_doc
    spanLoop t is_training sequence_a_is_doc ex.is_impossible
      tokpos.1 tokpos.2 (truncated_query.length + sequence_added_tokens)
      example_index unique_id spans2

/-- squad.py lines 84-240: the outer loop over examples, threading the
`example_index` of `enumerate` and the shared `unique_id` counter (advanced by
the number of features the example produced). -/
def convertLoop (t : Tokenizer)
    (max_seq_length doc_stride max_query_length : Nat)
    (is_training sequence_a_is_doc : Bool) :
    Nat → Nat → List SquadExample → Except PyError (List SquadFeatures)
  | _, _, [] => .ok []
  | example_index, unique_id, ex :: rest => do
    let fs ← convertExample t max_seq_length doc_stride max_query_length
      is_training sequence_a_is_doc example_index unique_id ex
    let fs2 ← convertLoop t max_seq_length doc_stride max_query_length
      is_training sequence_a_is_doc (example_index + 1) (unique_id + fs.length) rest
    return fs ++ fs2

/-- squad.py lines 75-240: `squad_convert_examples_to_features`, with
`unique_id` starting at 1000000000. -/
def squad_convert_examples_to_features (examples : List SquadExample)
    (t : Tokenizer) (max_seq_length doc_stride max_query_length : Nat)
    (is_training sequence_a_is_doc : Bool) :
    Except PyError (List SquadFeatures) :=
  convertLoop t max_seq_length doc_stride max_query_length is_training
    sequence_a_is_doc 0 1000000000 examples

theorem pyListIndex_spec (x : Nat) :
    ∀ (l : List Nat) (i : Nat), pyListIndex l x = some i →
      i < l.length ∧ l[i]? = some x
  | [], i, h => by cases h
  | a :: rest, i, h => by
    simp only [pyListIndex] at h
    by_cases ha : (a == x) = true
    · rw [if_pos ha] at h
      cases h
      exact ⟨by simp, by simpa using beq_iff_eq.1 ha⟩
    · rw [if_neg ha] at h
      rcases hr : pyListIndex rest x with _ | j
      · rw [hr] at h; cases h
      · rw [hr] at h
        cases h
        obtain ⟨h1, h2⟩ := pyListIndex_spec x rest j hr
        exact ⟨by simpa using Nat.succ_lt_succ h1, by simpa using h2⟩

theorem npWhereEq_mem (l : List Nat) (x : Nat) (i : Nat) :
    i ∈ npWhereEq l x ↔ l[i]? = some x := by
  unfold npWhereEq
  rw [List.mem_filter, List.mem_range]
  constructor
  · rintro ⟨hlt, hget⟩
    have hx : l.getD i 0 = x := beq_iff_eq.1 hget
    rw [List.getD_eq_getElem?_getD, List.getElem?_eq_getElem hlt] at hx
    rw [List.getElem?_eq_getElem hlt]
    simpa using hx
  · intro hget
    have hlt : i < l.length := (List.getElem?_eq_some_iff.1 hget).1
    refine ⟨hlt, ?_⟩
    rw [List.getD_eq_getElem?_getD, hget]
    simp

theorem foldlSet_length (ps : List Nat) (p : List Nat) :
    (ps.foldl (fun acc i => acc.set i 1) p).length = p.length := by
  induction ps generalizing p with
  | nil => rfl
  | cons j rest ih => simp [List.foldl_cons, ih]

theorem foldlSet_get_of_not_mem (i : Nat) (ps : List Nat) (p : List Nat)
    (h : i ∉ ps) :
    (ps.foldl (fun acc j => acc.set j 1) p)[i]? = p[i]? := by
  induction ps generalizing p with
  | nil => rfl
  | cons j rest ih =>
    have hji : j ≠ i := fun he => h (he ▸ List.mem_cons_self j rest)
    rw [List.foldl_cons, ih _ (fun hm => h (List.mem_cons_of_mem j hm)),
      List.getElem?_set_ne hji]

theorem foldlSet_get_of_mem (i : Nat) (ps : List Nat) (p : List Nat)
    (h : i ∈ ps) (hlen : i < p.length) :
    (ps.foldl (fun acc j => acc.set j 1) p)[i]? = some 1 := by
  induction ps generalizing p with
  | nil => cases h
  | cons j rest ih =>
    rw [List.foldl_cons]
    by_cases hm : i ∈ rest
    · exact ih _ hm (by simpa using hlen)
    · have hji : j = i := by
        rcases List.mem_cons.1 h with he | hmm
        · exact he.symm
        · exact absurd hmm hm
      rw [foldlSet_get_of_not_mem i rest _ hm, hji, List.getElem?_set_self hlen]

theorem assembleSpanFeature_fields (t : Tokenizer) (tr sad imp : Bool)
    (tsp tep : Int) (qps ei uid : Nat) (span : SpanDict) (f : SquadFeatures)
    (h : assembleSpanFeature t tr sad imp tsp tep qps ei uid span = .ok f) :
    f.unique_id = uid ∧ f.example_index = ei ∧ f.input_ids = span.input_ids := by
  unfold assembleSpanFeature at h
  simp only [] at h
  split at h
  · cases h
  · split at h <;> split at h <;> cases h <;> exact ⟨rfl, rfl, rfl⟩

theorem assembleSpanFeature_pmask (t : Tokenizer) (tr sad imp : Bool)
    (tsp tep : Int) (qps ei uid : Nat) (span : SpanDict) (f : SquadFeatures)
    (hne : t.cls_token_id ≠ t.sep_token_id)
    (h : assembleSpanFeature t tr sad imp tsp tep qps ei uid span = .ok f) :
    f.p_mask[f.cls_index]? = some 0 ∧
    ∀ i : Nat, f.input_ids[i]? = some t.sep_token_id → f.p_mask[i]? = some 1 := by
  unfold assembleSpanFeature at h
  simp only [] at h
  split at h
  · cases h
  · rename_i cls_index hcls
    split at h
    all_goals
      split at h
      case isFalse => cases h
      case isTrue hb =>
        cases h
        obtain ⟨hsep, hclslt⟩ := hb
        constructor
        · simp only []
          rw [List.getElem?_set_self (by rwa [foldlSet_length])]
        · intro i hgi
          simp only [] at hgi ⊢
          have hmem : i ∈ npWhereEq span.input_ids t.sep_token_id :=
            (npWhereEq_mem span.input_ids t.sep_token_id i).2 hgi
          have hine : cls_index ≠ i := by
            intro he
            subst he
            have hcg := (pyListIndex_spec t.cls_token_id span.input_ids cls_index hcls).2
            rw [hcg] at hgi
            exact hne (by injection hgi)
          rw [List.getElem?_set_ne hine,
            foldlSet_get_of_mem i _ _ hmem (hsep i hmem)]

theorem exceptBindOkIff {ε α β : Type} (e : Except ε α) (f : α → Except ε β)
    (b : β) : (e >>= f) = .ok b ↔ ∃ a, e = .ok a ∧ f a = .ok b := by
  cases e with
  | error er =>
    constructor
    · intro h; cases h
    · rintro ⟨a, ha, _⟩; cases ha
  | ok a =>
    constructor
    · intro h; exact ⟨a, rfl, h⟩
    · rintro ⟨a2, ha, hf⟩
      cases ha
      exact hf

theorem spanLoop_pmask (t : Tokenizer) (tr sad imp : Bool) (tsp tep : Int)
    (qps ei : Nat) (hne : t.cls_token_id ≠ t.sep_token_id) :
    ∀ (spans : List SpanDict) (uid : Nat) (fs : List SquadFeatures),
      spanLoop t tr sad imp tsp tep qps ei uid spans = .ok fs →
      ∀ f ∈ fs, f.p_mask[f.cls_index]? = some 0 ∧
        ∀ i : Nat, f.input_ids[i]? = some t.sep_token_id → f.p_mask[i]? = some 1
  | [], uid, fs, h => by
    cases h
    intro f hf
    cases hf
  | span :: rest, uid, fs, h => by
    simp only [spanLoop] at h
    rw [exceptBindOkIff] at h
    obtain ⟨f0, h0, h⟩ := h
    rw [exceptBindOkIff] at h
    obtain ⟨fs2, h2, h⟩ := h
    cases h
    intro f hf
    rcases List.mem_cons.1 hf with he | hm
    · subst he
      exact assembleSpanFeature_pmask t tr sad imp tsp tep qps ei uid span f hne h0
    · exact spanLoop_pmask t tr sad imp tsp tep qps ei hne rest (uid + 1) fs2 h2 f hm

theorem spanLoop_ids (t : Tokenizer) (tr sad imp : Bool) (tsp tep : Int)
    (qps ei : Nat) :
    ∀ (spans : List SpanDict) (uid : Nat) (fs : List SquadFeatures),
      spanLoop t tr sad imp tsp tep qps ei uid spans = .ok fs →
      ∀ i : Nat, i < fs.length →
        (fs[i]?).map SquadFeatures.unique_id = some (uid + i)
  | [], uid, fs, h => by
    cases h
    intro i hi
    cases hi
  | span :: rest, uid, fs, h => by
    simp only [spanLoop] at h
    rw [exceptBindOkIff] at h
    obtain ⟨f0, h0, h⟩ := h
    rw [exceptBindOkIff] at h
    obtain ⟨fs2, h2, h⟩ := h
    cases h
    intro i hi
    cases i with
    | zero =>
      simp only [List.getElem?_cons_zero, Option.map_some', Nat.add_zero]
      rw [(assembleSpanFeature_fields t tr sad imp tsp tep qps ei uid span f0 h0).1]
    | succ j =>
      have hj : j < fs2.length := by simpa using hi
      have := spanLoop_ids t tr sad imp tsp tep qps ei rest (uid + 1) fs2 h2 j hj
      simpa [show uid + 1 + j = uid + (j + 1) by omega] using this

theorem convertExample_pmask (t : Tokenizer) (msl ds mql : Nat)
    (tr sad : Bool) (ei uid : Nat) (ex : SquadExample)
    (fs : List SquadFeatures) (hne : t.cls_token_id ≠ t.sep_token_id)
    (h : convertExample t msl ds mql tr sad ei uid ex = .ok fs) :
    ∀ f ∈ fs, f.p_mask[f.cls_index]? = some 0 ∧
      ∀ i : Nat, f.input_ids[i]? = some t.sep_token_id → f.p_mask[i]? = some 1 := by
  unfold convertExample at h
  simp only [] at h
  split at h
  · cases h
    intro f hf
    cases hf
  · rw [exceptBindOkIff] at h
    obtain ⟨tokpos, hE, h⟩ := h
    exact spanLoop_pmask t tr sad ex.is_impossible tokpos.1 tokpos.2 _ ei hne _ uid fs h

theorem convertExample_ids (t : Tokenizer) (msl ds mql : Nat)
    (tr sad : Bool) (ei uid : Nat) (ex : SquadExample)
    (fs : List SquadFeatures)
    (h : convertExample t msl ds mql tr sad ei uid ex = .ok fs) :
    ∀ i : Nat, i < fs.length →
      (fs[i]?).map SquadFeatures.unique_id = some (uid + i) := by
  unfold convertExample at h
  simp only [] at h
  split at h
  · cases h
    intro i hi
    cases hi
  · rw [exceptBindOkIff] at h
    obtain ⟨tokpos, hE, h⟩ := h
    exact spanLoop_ids t tr sad ex.is_impossible tokpos.1 tokpos.2 _ ei _ uid fs h

theorem convertLoop_pmask (t : Tokenizer) (msl ds mql : Nat)
    (tr sad : Bool) (hne : t.cls_token_id ≠ t.sep_token_id) :
    ∀ (es : List SquadExample) (ei uid : Nat) (fs : List SquadFeatures),
      convertLoop t msl ds mql tr sad ei uid es = .ok fs →
      ∀ f ∈ fs, f.p_mask[f.cls_index]? = some 0 ∧
        ∀ i : Nat, f.input_ids[i]? = some t.sep_token_id → f.p_mask[i]? = some 1
  | [], ei, uid, fs, h => by
    cases h
    intro f hf
    cases hf
  | ex :: rest, ei, uid, fs, h => by
    simp only [convertLoop] at h
    rw [exceptBindOkIff] at h
    obtain ⟨fs1, h1, h⟩ := h
    rw [exceptBindOkIff] at h
    obtain ⟨fs2, h2, h⟩ := h
    cases h
    intro f hf
    rcases List.mem_append.1 hf with hm | hm
    · exact convertExample_pmask t msl ds mql tr sad ei uid ex fs1 hne h1 f hm
    · exact convertLoop_pmask t msl ds mql tr sad hne rest (ei + 1)
        (uid + fs1.length) fs2 h2 f hm

theorem convertLoop_ids (t : Tokenizer) (msl ds mql : Nat) (tr sad : Bool) :
    ∀ (es : List SquadExample) (ei uid : Nat) (fs : List SquadFeatures),
      convertLoop t msl ds mql tr sad ei uid es = .ok fs →
      ∀ i : Nat, i < fs.length →
        (fs[i]?).map SquadFeatures.unique_id = some (uid + i)
  | [], ei, uid, fs, h => by
    cases h
    intro i hi
    cases hi
  | ex :: rest, ei, uid, fs, h => by
    simp only [convertLoop] at h
    rw [exceptBindOkIff] at h
    obtain ⟨fs1, h1, h⟩ := h
    rw [exceptBindOkIff] at h
    obtain ⟨fs2, h2, h⟩ := h
    cases h
    intro i hi
    by_cases hlt : i < fs1.length
    · rw [List.getElem?_append_left hlt]
      exact convertExample_ids t msl ds mql tr sad ei uid ex fs1 h1 i hlt
    · rw [List.getElem?_append_right (Nat.le_of_not_lt hlt)]
      have hi2 : i - fs1.length < fs2.length := by
        simp only [List.length_append] at hi
        omega
      have := convertLoop_ids t msl ds mql tr sad rest (ei + 1)
        (uid + fs1.length) fs2 h2 (i - fs1.length) hi2
      simpa [show uid + fs1.length + (i - fs1.length) = uid + i by omega] using this

/-- C1: for every FeatureRecord produced by a (successful) run of
`squad_convert_examples_to_features` with distinct classification and
separator token ids, the probability mask is 0 at the classification-token
index and 1 at every position whose input id equals the separator-token
id. -/
theorem squad_C1_pmask (examples : List SquadExample) (t : Tokenizer)
    (max_seq_length doc_stride max_query_length : Nat)
    (is_training sequence_a_is_doc : Bool) (features : List SquadFeatures)
    (hne : t.cls_token_id ≠ t.sep_token_id)
    (h : squad_convert_examples_to_features examples t max_seq_length
      doc_stride max_query_length is_training sequence_a_is_doc = .ok features) :
    ∀ f ∈ features, f.p_mask[f.cls_index]? = some 0 ∧
      ∀ i : Nat, f.input_ids[i]? = some t.sep_token_id → f.p_mask[i]? = some 1 :=
  convertLoop_pmask t max_seq_length doc_stride max_query_length is_training
    sequence_a_is_doc hne examples 0 1000000000 features h

/-- C3: a successful run of `squad_convert_examples_to_features` returning
`K` FeatureRecords gives them unique ids exactly
`1000000000, ..., 1000000000 + K - 1` in output order; the counter is
threaded through all examples of the invocation, never reset. -/
theorem squad_C3_unique_ids (examples : List SquadExample) (t : Tokenizer)
    (max_seq_length doc_stride max_query_length : Nat)
    (is_training sequence_a_is_doc : Bool) (features : List SquadFeatures)
    (h : squad_convert_examples_to_features examples t max_seq_length
      doc_stride max_query_length is_training sequence_a_is_doc = .ok features) :
    ∀ i : Nat, i < features.length →
      (features[i]?).map SquadFeatures.unique_id = some (1000000000 + i) :=
  convertLoop_ids t max_seq_length doc_stride max_query_length is_training
    sequence_a_is_doc examples 0 1000000000 features h

/-- C2: for a window feature assembled in training mode for an example that is
not globally impossible, if the refined sub-token answer span
(`tok_start_position`, `tok_end_position`) does not lie entirely within
`[span.start, span.start + span.length - 1]` then the produced record has
`start_position = end_position = cls_index` and the window is marked
impossible; if it does lie within, the positions are the span shifted by
`-span.start` plus the question-plus-single-sequence-special-token offset
(0 when `sequence_a_is_doc`). -/
theorem squad_C2_window_positions (t : Tokenizer) (sad imp : Bool)
    (tsp tep : Int) (qps ei uid : Nat) (span : SpanDict) (f : SquadFeatures)
    (himp : imp = false)
    (h : assembleSpanFeature t true sad imp tsp tep qps ei uid span = .ok f) :
    (¬ ((span.start : Int) ≤ tsp ∧
          tep ≤ (span.start : Int) + (span.length : Int) - 1) →
      f.start_position = (f.cls_index : Int) ∧
      f.end_position = (f.cls_index : Int) ∧
      (spanPositions true imp tsp tep sad qps f.cls_index span).2.2 = true) ∧
    (((span.start : Int) ≤ tsp ∧
        tep ≤ (span.start : Int) + (span.length : Int) - 1) →
      f.start_position = tsp - (span.start : Int) +
        (if sad then 0 else (qps : Int)) ∧
      f.end_position = tep - (span.start : Int) +
        (if sad then 0 else (qps : Int))) := by
  subst himp
  unfold assembleSpanFeature at h
  simp only [] at h
  split at h
  · cases h
  · rename_i cls_index hcls
    split at h
    all_goals
      split at h
      case isFalse => cases h
      case isTrue hb =>
        cases h
        dsimp only
        constructor
        · intro hnc
          unfold spanPositions
          simp only [Bool.not_false, Bool.and_true, if_true]
          rw [if_pos hnc]
          exact ⟨rfl, rfl, rfl⟩
        · intro hc
          unfold spanPositions
          simp only [Bool.not_false, Bool.and_true, if_true]
          rw [if_neg (not_not_intro hc)]
          exact ⟨rfl, rfl⟩

/-- C8: in training mode, an example that is not impossible and whose
reconstructed whitespace-token span does not contain the normalized recorded
answer text contributes no FeatureRecords, and the loop continues with the
remaining examples (only the enumerate index advances, the unique-id counter
does not). -/
theorem squad_C8_mismatch_skip (t : Tokenizer)
    (max_seq_length doc_stride max_query_length : Nat)
    (sequence_a_is_doc : Bool) (ex : SquadExample)
    (himp : ex.is_impossible = false)
    (hmis : answerMismatched ex = true) :
    (∀ (example_index unique_id : Nat) (rest : List SquadExample),
      convertLoop t max_seq_length doc_stride max_query_length true
          sequence_a_is_doc example_index unique_id (ex :: rest) =
        convertLoop t max_seq_length doc_stride max_query_length true
          sequence_a_is_doc (example_index + 1) unique_id rest) ∧
    (∀ (example_index unique_id : Nat),
      convertExample t max_seq_length doc_stride max_query_length true
        sequence_a_is_doc example_index unique_id ex = .ok []) ∧
    (∀ (rest : List SquadExample),
      squad_convert_examples_to_features (ex :: rest) t max_seq_length
          doc_stride max_query_length true sequence_a_is_doc =
        convertLoop t max_seq_length doc_stride max_query_length true
          sequence_a_is_doc 1 1000000000 rest) := by
  have hex : ∀ (example_index unique_id : Nat),
      convertExample t max_seq_length doc_stride max_query_length true
        sequence_a_is_doc example_index unique_id ex = .ok [] := by
    intro ei uid
    unfold convertExample
    simp only [himp, hmis, Bool.not_false, Bool.and_true, Bool.true_and, if_true]
    rfl
  have hloop : ∀ (example_index unique_id : Nat) (rest : List SquadExample),
      convertLoop t max_seq_length doc_stride max_query_length true
          sequence_a_is_doc example_index unique_id (ex :: rest) =
        convertLoop t max_seq_length doc_stride max_query_length true
          sequence_a_is_doc (example_index + 1) unique_id rest := by
    intro ei uid rest
    simp only [convertLoop, hex ei uid, exceptBindOk, List.length_nil, Nat.add_zero]
    cases hr : convertLoop t max_seq_length doc_stride max_query_length true
        sequence_a_is_doc (ei + 1) uid rest with
    | error e => rfl
    | ok l => simp [List.nil_append]
  exact ⟨hloop, hex, fun rest => hloop 0 1000000000 rest⟩

/-- A small concrete tokenizer used by the pipeline witnesses: each word is
its own sub-token, the query encodes to the single id 7, and every window
encodes to a fixed 6-id sequence with cls = 101, sep = 102, pad = 0 and no
overflow. -/
def toyTok : Tokenizer :=
  { tokenize := fun s => [s],
    encode := fun _ _ => [7],
    encode_plus := fun _ _ _ _ _ =>
      { input_ids := [101, 7, 102, 8, 9, 102],
        token_type_ids := [0, 0, 0, 1, 1, 1],
        attention_mask := [1, 1, 1, 1, 1, 1],
        overflowing_tokens := none },
    convert_ids_to_tokens := fun l => l.map (fun _ => "t"),
    pad_token_id := 0, sep_token_id := 102, cls_token_id := 101,
    max_len := 512, max_len_single_sentence := 510,
    max_len_sentences_pair := 509 }

/-- A concrete two-word example for the pipeline witnesses. -/
def toyEx : SquadExample :=
  { qas_id := "1", question_text := "qq", context_text := "hello world",
    answer_text := some "world", title := "t", is_impossible := false,
    start_position := 1, end_position := 1,
    doc_tokens := ["hello", "world"],
    char_to_word_offset := [0, 0, 0, 0, 0, 0, 1, 1, 1, 1, 1] }

/-- `toyEx` with a recorded answer text that the reconstructed span does not
contain, triggering the training filter. -/
def toyExBad : SquadExample := { toyEx with answer_text := some "zzz" }

/-- The single feature produced by `squad_convert_examples_to_features` on
`[toyEx]` with the toy tokenizer (`max_seq_length` 10, `doc_stride` 1,
`max_query_length` 64, not training). -/
def toyFeature0 : SquadFeatures :=
  { input_ids := [101, 7, 102, 8, 9, 102],
    attention_mask := [1, 1, 1, 1, 1, 1],
    token_type_ids := [0, 0, 0, 1, 1, 1],
    cls_index := 0,
    p_mask := [0, 1, 1, 0, 0, 1],
    example_index := 0,
    unique_id := 1000000000,
    paragraph_len := 2,
    token_is_max_context := [(3, true), (4, true)],
    tokens := ["t", "t", "t", "t", "t", "t"],
    token_to_orig_map := [(3, 0), (4, 1)],
    start_position := 0,
    end_position := 0 }

/-- The second feature of a two-example run: same window, next `unique_id`,
next `example_index`. -/
def toyFeature1 : SquadFeatures :=
  { toyFeature0 with unique_id := 1000000001, example_index := 1 }

/-- Witness for C1 at a concrete input: the run produces `toyFeature0`, whose
mask is 0 at the classification index and 1 at the separator position 2. -/
theorem squad_C1_witness :
    squad_convert_examples_to_features [toyEx] toyTok 10 1 64 false false =
      .ok [toyFeature0] ∧
    toyFeature0.p_mask[toyFeature0.cls_index]? = some 0 ∧
    (toyFeature0.input_ids[2]? = some toyTok.sep_token_id →
      toyFeature0.p_mask[2]? = some 1) := by
  refine ⟨rfl, ?_, ?_⟩
  · exact (squad_C1_pmask [toyEx] toyTok 10 1 64 false false [toyFeature0]
      (by decide) rfl toyFeature0 (List.mem_singleton_self _)).1
  · exact fun hg => (squad_C1_pmask [toyEx] toyTok 10 1 64 false false
      [toyFeature0] (by decide) rfl toyFeature0 (List.mem_singleton_self _)).2 2 hg

/-- Witness for C3 at a concrete input: two examples produce unique ids
1000000000 and 1000000001 in order. -/
theorem squad_C3_witness :
    squad_convert_examples_to_features [toyEx, toyEx] toyTok 10 1 64 false false =
      .ok [toyFeature0, toyFeature1] ∧
    ([toyFeature0, toyFeature1][1]?).map SquadFeatures.unique_id =
      some (1000000000 + 1) := by
  refine ⟨rfl, ?_⟩
  exact squad_C3_unique_ids [toyEx, toyEx] toyTok 10 1 64 false false
    [toyFeature0, toyFeature1] rfl 1 (by decide)

/-- The feature assembled from `c10span` with an out-of-window answer span,
used by the C2 witness. -/
def c2feature : SquadFeatures :=
  { input_ids := [101, 7, 102],
    attention_mask := [1, 1, 1],
    token_type_ids := [0, 0, 1],
    cls_index := 0,
    p_mask := [0, 1, 1],
    example_index := 0,
    unique_id := 1000000000,
    paragraph_len := 2,
    token_is_max_context := [],
    tokens := ["a", "b", "c"],
    token_to_orig_map := [],
    start_position := 0,
    end_position := 0 }

/-- Witness for C2 at a concrete input: the span (5, 6) lies outside the
window `[0, 1]` of `c10span`, so both positions point at the classification
index. -/
theorem squad_C2_witness :
    assembleSpanFeature toyTok true false false 5 6 3 0 1000000000 c10span =
      .ok c2feature ∧
    c2feature.start_position = (c2feature.cls_index : Int) ∧
    c2feature.end_position = (c2feature.cls_index : Int) := by
  refine ⟨rfl, ?_⟩
  have h := (squad_C2_window_positions toyTok false false 5 6 3 0 1000000000
    c10span c2feature rfl rfl).1 (by decide)
  exact ⟨h.1, h.2.1⟩

/-- Witness for C8 at a concrete input: the mismatched example contributes no
features, and the loop over the remaining examples continues with only the
enumerate index advanced. -/
theorem squad_C8_witness :
    convertExample toyTok 10 1 64 true false 0 1000000000 toyExBad = .ok [] ∧
    convertLoop toyTok 10 1 64 true false 0 1000000000 [toyExBad, toyEx] =
      convertLoop toyTok 10 1 64 true false 1 1000000000 [toyEx] ∧
    squad_convert_examples_to_features [toyExBad, toyEx] toyTok 10 1 64 true false =
      convertLoop toyTok 10 1 64 true false 1 1000000000 [toyEx] := by
  have h := squad_C8_mismatch_skip toyTok 10 1 64 false toyExBad rfl (by decide)
  exact ⟨h.2.1 0 1000000000, h.1 0 1000000000 [toyEx], h.2.2 [toyEx]⟩
